import Mathlib

/-!
Verification development for the KPI processing system.

The definitions below are a shallow embedding of the Python sources:
`team_leader_formatting.py`, `team_table_sync.py`, `kpi_dashboard_loader.py`,
`individual_sheet_v2.py` and `function_app.py`.  Pure helper functions of the
source become Lean functions; mutation of the workbook becomes explicit state
passing over a cell grid.  Spreadsheet cell values are modelled by an inductive
`Val` (strings and exact rationals stand in for Python strings and floats);
`none` models an empty cell / Python `None`.  Calendar dates are `HDate`
triples compared lexicographically, exactly as Python `datetime.date` compares.
-/

/- ------------------------------------------------------------------ -/
/- Python string primitives used by the sources                        -/
/- ------------------------------------------------------------------ -/

/-- Python `str.strip()` on the character list of a string. -/
def pyStrip (s : String) : String :=
  ⟨((s.data.dropWhile Char.isWhitespace).reverse.dropWhile Char.isWhitespace).reverse⟩

/-- Python `str.lower()` (ASCII case folding, sufficient for the config data). -/
def pyLower (s : String) : String :=
  ⟨s.data.map Char.toLower⟩

/-- Python `str.upper()` (ASCII case folding). -/
def pyUpper (s : String) : String :=
  ⟨s.data.map Char.toUpper⟩

/-- Does list `l` start with list `p`? -/
def listStartsWith [DecidableEq α] : List α → List α → Bool
  | _, [] => true
  | [], _ :: _ => false
  | a :: as, b :: bs => a = b && listStartsWith as bs

/-- Does list `l` contain `p` as a contiguous sublist (Python `in` on strings)? -/
def listContainsSub [DecidableEq α] (p : List α) : List α → Bool
  | [] => p.isEmpty
  | a :: as => listStartsWith (a :: as) p || listContainsSub p as

/- ------------------------------------------------------------------ -/
/- Cell values                                                         -/
/- ------------------------------------------------------------------ -/

/-- A spreadsheet cell value: a string or an exact number (Python floats from
the workbook are modelled as rationals). -/
inductive Val where
  | str (s : String)
  | num (q : ℚ)
deriving DecidableEq, Repr

/-- Python truthiness of a cell value (`''` and `0` are falsy). -/
def valTruthy : Val → Bool
  | .str s => !(s = "")
  | .num q => !(q = 0)

/-- Python `str(...)` applied to a cell value.  Numeric values are rendered via
an injective encoding standing in for Python float repr (spreadsheet name cells
are strings, so this rendering is never hit by the claims). -/
def valToStr : Val → String
  | .str s => s
  | .num q => toString q.num ++ "/" ++ toString q.den

/- ------------------------------------------------------------------ -/
/- Dates                                                               -/
/- ------------------------------------------------------------------ -/

/-- A calendar date; Python `datetime.date` compares lexicographically on
(year, month, day). -/
structure HDate where
  y : Nat
  m : Nat
  d : Nat
deriving DecidableEq, Repr

/-- Python `date` comparison `a <= b` (lexicographic). -/
def HDate.le (a b : HDate) : Bool :=
  a.y < b.y || (a.y = b.y && (a.m < b.m || (a.m = b.m && a.d ≤ b.d)))

/- ------------------------------------------------------------------ -/
/- Stable sorting (Python list.sort is a stable sort by key)           -/
/- ------------------------------------------------------------------ -/

/-- Insert `a` into `l` before the first element strictly greater than `a`
(`lt b a` reads "b sorts strictly before a").  Used by `stableSortBy`. -/
def stableInsert (lt : α → α → Bool) (a : α) : List α → List α
  | [] => [a]
  | b :: bs => if lt b a then b :: stableInsert lt a bs else a :: b :: bs

/-- Stable insertion sort: elements with equal keys keep their input order,
which is exactly the guarantee of Python `list.sort`. -/
def stableSortBy (lt : α → α → Bool) : List α → List α
  | [] => []
  | a :: as => stableInsert lt a (stableSortBy lt as)

/-- Lexicographic comparison of Python strings (by character code points). -/
def pyStrLt : List Char → List Char → Bool
  | [], [] => false
  | [], _ :: _ => true
  | _ :: _, [] => false
  | a :: as, b :: bs =>
      if a.val < b.val then true
      else if b.val < a.val then false
      else pyStrLt as bs

/- ------------------------------------------------------------------ -/
/- team_leader_formatting.py : configuration constants                 -/
/- ------------------------------------------------------------------ -/

/-- `MONTH_TO_NUM` of team_leader_formatting.py: month name to calendar
number.  Months absent from the map get the sort key 99 in the source;
here the canonical twelve names are total. -/
def MONTH_TO_NUM : String → Option Nat := fun m =>
  if m = "Jan" then some 1 else if m = "Feb" then some 2
  else if m = "Mar" then some 3 else if m = "Apr" then some 4
  else if m = "May" then some 5 else if m = "June" then some 6
  else if m = "July" then some 7 else if m = "Aug" then some 8
  else if m = "Sept" then some 9 else if m = "Oct" then some 10
  else if m = "Nov" then some 11 else if m = "Dec" then some 12
  else none

/- ------------------------------------------------------------------ -/
/- Competency / team-average history records                           -/
/- ------------------------------------------------------------------ -/

/-- A `Config_CompetencyHistory` record, after the config loader.  Missing
dict keys surface as `""` / `none`, matching `r.get(...)` in the source. -/
structure CompRecord where
  name : String
  effectiveDate : Option HDate
  competency : Option String
deriving DecidableEq, Repr

/-- A `Config_TeamAve_Thresholds` record. -/
structure TeamAveRecord where
  team : String
  effectiveDate : Option HDate
  billingsRedBelow : Option ℚ
  billingsGreenMin : Option ℚ
  billingsGreenMax : Option ℚ
  billingsBlueAbove : Option ℚ
deriving DecidableEq, Repr

/-- A billing threshold bundle, as built by `get_team_ave_threshold_ranges`
and consumed by `apply_billing_rules` (`thresholds.get(...)`). -/
structure Thresholds where
  red_below : Option ℚ
  green_min : Option ℚ
  green_max : Option ℚ
  blue_above : Option ℚ
deriving DecidableEq, Repr

/-- The threshold bundle carried by a team-average history record. -/
def threshOf (r : TeamAveRecord) : Thresholds :=
  ⟨r.billingsRedBelow, r.billingsGreenMin, r.billingsGreenMax, r.billingsBlueAbove⟩

/-- Record filter of `get_competency_ranges_for_therapist`:
`r.get('Name','').strip().lower() == therapist_name.strip().lower() and
r.get('EffectiveDate')`. -/
def filterTherapistRecords (therapistName : String) (history : List CompRecord) :
    List CompRecord :=
  history.filter (fun r =>
    pyLower (pyStrip r.name) = pyLower (pyStrip therapistName) && r.effectiveDate.isSome)

/-- Record filter of `get_team_ave_threshold_ranges`:
`r.get('Team','').strip() == team_name.strip() and r.get('EffectiveDate')`.
Note: no `.lower()` here, unlike the therapist filter. -/
def filterTeamRecords (teamName : String) (history : List TeamAveRecord) :
    List TeamAveRecord :=
  history.filter (fun r => pyStrip r.team = pyStrip teamName && r.effectiveDate.isSome)

/-- `records.sort(key=lambda r: r.get('EffectiveDate'))` — ascending stable
sort by effective date (all records in the sorted list have a date). -/
def sortRecordsBy (dateOf : α → Option HDate) (l : List α) : List α :=
  stableSortBy (fun a b =>
    HDate.le (dateOf a |>.getD ⟨0,0,0⟩) (dateOf b |>.getD ⟨0,0,0⟩) &&
      !((dateOf a |>.getD ⟨0,0,0⟩) = (dateOf b |>.getD ⟨0,0,0⟩))) l

/-- The applicable-regime scan shared by both resolvers: walk the
ascending-sorted records and keep overwriting the accumulator with
`g r` whenever `r.EffectiveDate <= target_date`. -/
def latestApplicable (dateOf : α → Option HDate) (g : α → β) (target : HDate)
    (l : List α) : Option β :=
  l.foldl (fun acc r =>
    match dateOf r with
    | some d => if HDate.le d target then some (g r) else acc
    | none => acc) none

/-- The spec's description of the same scan: the latest ascending-sorted
record whose EffectiveDate is on or before the target date. -/
def specLatestApplicable (dateOf : α → Option HDate) (g : α → β) (target : HDate)
    (l : List α) : Option β :=
  ((l.filter (fun r =>
      match dateOf r with
      | some d => HDate.le d target
      | none => false)).getLast?).map g

/-- The month-by-month applicable competency of
`get_competency_ranges_for_therapist`: the value left in `applicable_comp`
after the scan, a `Option (Option String)` collapsed to the stored competency.
`some none` (an applicable record without a competency) and `none` both fail
the source's `if applicable_comp:` truthiness check downstream. -/
def monthCompetency (records : List CompRecord) (year monthNum : Nat) :
    Option (Option String) :=
  latestApplicable (·.effectiveDate) (·.competency) ⟨year, monthNum, 15⟩
    (sortRecordsBy (·.effectiveDate) records)

/-- The month-by-month applicable threshold bundle of
`get_team_ave_threshold_ranges`. -/
def monthThresholds (records : List TeamAveRecord) (year monthNum : Nat) :
    Option Thresholds :=
  latestApplicable (·.effectiveDate) threshOf ⟨year, monthNum, 15⟩
    (sortRecordsBy (·.effectiveDate) records)

/- ------------------------------------------------------------------ -/
/- Range grouping                                                      -/
/- ------------------------------------------------------------------ -/

/-- The consecutive-regime grouping loop of both resolvers, in progress:
`cur` is the regime that opened the current range, `s`/`e` its first and
latest column.  A new range starts whenever the grouping key changes
(`comp == current_comp` resp. `threshold_key == current_key` in the source;
the initial Python `None` key never equals a real key, so the first element
always opens a range, which `groupRanges` encodes directly). -/
def groupGo [DecidableEq κ] (key : τ → κ) (cur : τ) (s e : Nat) :
    List (τ × Nat) → List (τ × Nat × Nat)
  | [] => [(cur, s, e)]
  | (t, col) :: rest =>
      if key t = key cur then groupGo key cur s col rest
      else (cur, s, e) :: groupGo key t col col rest

/-- Group a calendar-ordered list of (regime, column) month entries into
maximal runs of months whose grouping key agrees. -/
def groupRanges [DecidableEq κ] (key : τ → κ) :
    List (τ × Nat) → List (τ × Nat × Nat)
  | [] => []
  | (t, col) :: rest => groupGo key t col col rest

/-- `ranges[-1] = (last, last_start, avg_col)` — retarget the end column of
the final range at the Average column. -/
def setLastEnd (a : Nat) : List (τ × Nat × Nat) → List (τ × Nat × Nat)
  | [] => []
  | [(t, s, _)] => [(t, s, a)]
  | r :: rs => r :: setLastEnd a rs

/- ------------------------------------------------------------------ -/
/- The two range resolvers                                             -/
/- ------------------------------------------------------------------ -/

/-- The per-month assignment pass of `get_competency_ranges_for_therapist`:
walk the calendar-ordered present months, resolve the applicable competency at
the 15th of the month, and keep the truthy ones with their column.
`monthCol` is the `data_cols` dict restricted to the twelve canonical month
names (keyed here by calendar number; `data_cols` only ever holds canonical
headers, so sorting its items by `MONTH_TO_NUM` is exactly calendar order). -/
def therapistMonthEntries (records : List CompRecord) (year : Nat)
    (monthCol : Nat → Option Nat) : List (String × Nat) :=
  (List.range' 1 12).filterMap (fun m =>
    match monthCol m with
    | none => none
    | some col =>
      match monthCompetency records year m with
      | some (some c) => if c = "" then none else some (c, col)
      | some none => none
      | none => none)

/-- The per-month assignment pass of `get_team_ave_threshold_ranges`.  The
built `applicable_thresholds` dict is always truthy (it has four keys even
when the values are None), so a month is kept exactly when some record
applied. -/
def teamMonthEntries (records : List TeamAveRecord) (year : Nat)
    (monthCol : Nat → Option Nat) : List (Thresholds × Nat) :=
  (List.range' 1 12).filterMap (fun m =>
    match monthCol m with
    | none => none
    | some col =>
      match monthThresholds records year m with
      | some th => some (th, col)
      | none => none)

/-- `get_competency_ranges_for_therapist(therapist_name, year, data_cols,
config)` of team_leader_formatting.py.  `year = 0` models a falsy year
(`None` from `extract_year_from_filename`); `avgCol` is
`data_cols.get('Average')` and column numbers are positive, so `some a` with
`a ≠ 0` is the truthy case of `if ranges and avg_col:`. -/
def get_competency_ranges_for_therapist (therapistName : String) (year : Nat)
    (monthCol : Nat → Option Nat) (avgCol : Option Nat)
    (history : List CompRecord) : Option (List (String × Nat × Nat)) :=
  let records := filterTherapistRecords therapistName history
  if records.isEmpty || year = 0 then none
  else
    let entries := therapistMonthEntries records year monthCol
    if entries.isEmpty then none
    else
      let ranges := groupRanges id entries
      let ranges :=
        match avgCol with
        | some a => if !ranges.isEmpty && !(a = 0) then setLastEnd a ranges else ranges
        | none => ranges
      if ranges.length > 1 then some ranges else none

/-- Grouping key of `get_team_ave_threshold_ranges`:
`(thresholds.get('green_min'), thresholds.get('blue_above'))`. -/
def teamThresholdKey (t : Thresholds) : Option ℚ × Option ℚ :=
  (t.green_min, t.blue_above)

/-- `get_team_ave_threshold_ranges(team_name, year, data_cols, config)` of
team_leader_formatting.py. -/
def get_team_ave_threshold_ranges (teamName : String) (year : Nat)
    (monthCol : Nat → Option Nat) (avgCol : Option Nat)
    (history : List TeamAveRecord) : Option (List (Thresholds × Nat × Nat)) :=
  let records := filterTeamRecords teamName history
  if records.isEmpty || year = 0 then none
  else
    let entries := teamMonthEntries records year monthCol
    if entries.isEmpty then none
    else
      let ranges := groupRanges teamThresholdKey entries
      let ranges :=
        match avgCol with
        | some a => if !ranges.isEmpty && !(a = 0) then setLastEnd a ranges else ranges
        | none => ranges
      if ranges.length > 1 then some ranges else none

/- ------------------------------------------------------------------ -/
/- Conditional formatting rules (billing)                              -/
/- ------------------------------------------------------------------ -/

/-- The comparison operator of one emitted conditional-formatting rule.
`blank` is the `FormulaRule(LEN(TRIM(..))=0)` rule; the others are
`CellIsRule` operators. -/
inductive CmpOp where
  | blank
  | gt
  | ge
  | lt
deriving DecidableEq, Repr

/-- One (predicate, fill colour) conditional-formatting rule as added by
`ws.conditional_formatting.add`.  The threshold is unused for `blank`. -/
structure CfRule where
  op : CmpOp
  threshold : ℚ
  colour : String
deriving DecidableEq, Repr

/-- The rule list emitted by `apply_billing_rules` of
team_leader_formatting.py, in order of addition:
blank→white, `> blue_above`→blue, `>= green_min`→green, `< green_min`→red,
with `thresholds.get('green_min', 0)` and `thresholds.get('blue_above', 100)`. -/
def apply_billing_rules (th : Thresholds) : List CfRule :=
  let green_min := th.green_min.getD 0
  let blue_above := th.blue_above.getD 100
  [ ⟨.blank, 0, "white"⟩,
    ⟨.gt, blue_above, "blue"⟩,
    ⟨.ge, green_min, "green"⟩,
    ⟨.lt, green_min, "red"⟩ ]

/-- The rule list emitted by `apply_billing_formatting_v2` of
individual_sheet_v2.py: the same four rules in the same order of addition. -/
def apply_billing_formatting_v2 (th : Thresholds) : List CfRule :=
  let green_min := th.green_min.getD 0
  let blue_above := th.blue_above.getD 100
  [ ⟨.blank, 0, "white"⟩,
    ⟨.gt, blue_above, "blue"⟩,
    ⟨.ge, green_min, "green"⟩,
    ⟨.lt, green_min, "red"⟩ ]

/-- Does a rule's predicate match a cell holding `v` (`none` = blank)?
Numeric comparisons only fire on numeric cells. -/
def ruleMatches (v : Option ℚ) (r : CfRule) : Bool :=
  match r.op, v with
  | .blank, none => true
  | .blank, some _ => false
  | .gt, some x => r.threshold < x
  | .ge, some x => r.threshold ≤ x
  | .lt, some x => x < r.threshold
  | _, none => false

/-- Rule evaluation under spreadsheet-engine priority semantics: rules are
assigned descending priority in order of addition and the earliest-added
matching rule supplies the fill (openpyxl/Excel behaviour). -/
def evalRulesFirstWins (rules : List CfRule) (v : Option ℚ) : Option String :=
  (rules.find? (ruleMatches v)).map (·.colour)

/-- Rule evaluation under "all rules evaluated, the last added wins on
tie" semantics (the evaluation order asserted by the specification). -/
def evalRulesLastWins (rules : List CfRule) (v : Option ℚ) : Option String :=
  (rules.reverse.find? (ruleMatches v)).map (·.colour)

/- ------------------------------------------------------------------ -/
/- Worksheet grids and named tables                                    -/
/- ------------------------------------------------------------------ -/

/-- A worksheet's cell store: (row, column) to optional value. -/
abbrev Grid : Type := Nat → Nat → Option Val

/-- The rectangle of a named table (`range_boundaries(table.ref)`): columns
`minCol..maxCol` and rows `minRow..maxRow`, the first row being the header. -/
structure Table where
  minCol : Nat
  minRow : Nat
  maxCol : Nat
  maxRow : Nat
deriving DecidableEq, Repr

/-- Write one cell. -/
def setCell (g : Grid) (r c : Nat) (v : Option Val) : Grid :=
  fun r2 c2 => if r2 = r ∧ c2 = c then v else g r2 c2

/-- A pending cell write: (row, column, value). -/
abbrev CellWrite := Nat × Nat × Option Val

/-- Apply a list of cell writes in order (later writes win). -/
def applyWrites (g : Grid) (l : List CellWrite) : Grid :=
  l.foldl (fun g w => setCell g w.1 w.2.1 w.2.2) g

/-- Insert-or-replace in an association list, keeping insertion order —
the behaviour of a Python dict assignment. -/
def upsert [DecidableEq α] (k : α) (v : β) : List (α × β) → List (α × β)
  | [] => [(k, v)]
  | (k2, v2) :: rest => if k2 = k then (k, v) :: rest else (k2, v2) :: upsert k v rest

/-- Python dict lookup on rows assembled with later-wins semantics
(`{r['name']: r['data'] for r in rows}` — a duplicate key keeps the last). -/
def dictGetLast (l : List (String × β)) (k : String) : Option β :=
  l.foldl (fun acc p => if p.1 = k then some p.2 else acc) none

/- ------------------------------------------------------------------ -/
/- kpi_dashboard_loader.py                                             -/
/- ------------------------------------------------------------------ -/

/-- `MONTH_COLUMNS` of kpi_dashboard_loader.py (line 85): the twelve month
headers plus the `Average` column. -/
def MONTH_COLUMNS : List String :=
  ["Jan", "Feb", "Mar", "Apr", "May", "June", "July", "Aug", "Sept", "Oct",
   "Nov", "Dec", "Average"]

/-- `MONTH_COLUMNS` of function_app.py (line 599): its private copy of the
loader omits the `Average` column. -/
def MONTH_COLUMNS_function_app : List String :=
  ["Jan", "Feb", "Mar", "Apr", "May", "June", "July", "Aug", "Sept", "Oct",
   "Nov", "Dec"]

/-- `read_table_data(ws, table_name, kpi_column_name)` of
kpi_dashboard_loader.py: header-driven month discovery, then one
months-to-value dict per named data row.  The result keeps row order
(a Python dict preserves insertion order). -/
def read_table_data (g : Grid) (t : Table) :
    List (String × List (String × Option Val)) :=
  let width := t.maxCol - t.minCol + 1
  let headerRow := (List.range width).map (fun i => g t.minRow (t.minCol + i))
  let monthIndices := headerRow.enum.foldl (fun acc p =>
    match p.2 with
    | some (.str s) => if s ∈ MONTH_COLUMNS then upsert s p.1 acc else acc
    | _ => acc) []
  (List.range' (t.minRow + 1) (t.maxRow - t.minRow)).foldl (fun res r =>
    match g r t.minCol with
    | some v =>
      if valTruthy v then
        let nm := pyStrip (valToStr v)
        let cur := (List.lookup nm res).getD []
        let mm := MONTH_COLUMNS.foldl (fun mm month =>
          match List.lookup month monthIndices with
          | some i => upsert month (g r (t.minCol + i)) mm
          | none => mm) cur
        upsert nm mm res
      else res
    | none => res) []

/-- The union of therapist names over all per-KPI tables
(`all_therapists = set(); ... update(...)` — Python set order is
unspecified; any fixed enumeration of the same set is faithful). -/
def allTherapists (kpiData : List (String × List (String × List (String × Option Val)))) :
    List String :=
  (kpiData.flatMap (fun kt => kt.2.map Prod.fst)).dedup

/-- `process_dashboard_sheet` of kpi_dashboard_loader.py: transpose the
per-KPI tables to therapist-major form, with an entry for EVERY month of
`MONTH_COLUMNS` and every configured KPI, `none` when absent. -/
def process_dashboard_sheet
    (kpiData : List (String × List (String × List (String × Option Val)))) :
    List (String × List (String × List (String × Option Val))) :=
  (allTherapists kpiData).map (fun nm =>
    (nm, MONTH_COLUMNS.map (fun month =>
      (month, kpiData.map (fun kt =>
        (kt.1,
          match List.lookup nm kt.2 with
          | some mm =>
            match List.lookup month mm with
            | some v => v
            | none => none
          | none => none))))))

/-- One normalized KPI record: `{'Name': .., 'Month': .., kpi: value, ...}`. -/
structure KpiRecord where
  name : String
  month : String
  values : List (String × Option Val)
deriving DecidableEq, Repr

/-- `transform_to_monthly_records` of kpi_dashboard_loader.py: one flat
record per (therapist, month entry). -/
def transform_to_monthly_records
    (therapistData : List (String × List (String × List (String × Option Val)))) :
    List KpiRecord :=
  therapistData.flatMap (fun nd => nd.2.map (fun md => ⟨nd.1, md.1, md.2⟩))

/-- The loader pipeline for a sheet configured with a single named table
(read, transpose, flatten), as `load_kpi_dashboard_data` does per sheet. -/
def load_table_records (g : Grid) (t : Table) (kpiName : String) : List KpiRecord :=
  transform_to_monthly_records (process_dashboard_sheet [(kpiName, read_table_data g t)])

/- ------------------------------------------------------------------ -/
/- team_table_sync.py : configuration                                  -/
/- ------------------------------------------------------------------ -/

/-- A `Config_Therapists` row after the config loader of function_app.py
(which normalizes `IsActive` to a real boolean).  `competency = none` and
`isActive = none` model absent dict keys, read through `t.get(...)`
defaults at each use site. -/
structure Therapist where
  name : String
  team : String
  competency : Option String
  isActive : Option Bool
  isTeamLeader : Bool
  fte : Option ℚ
deriving DecidableEq, Repr

/-- The slice of the config dict used by the table sync. -/
structure Config where
  therapists : List Therapist
deriving Repr

/-- `COMPETENCY_ORDER` with the `.get(.., 99)` default. -/
def COMPETENCY_ORDER : String → Nat := fun c =>
  if c = "Senior" then 1 else if c = "CA" then 2 else if c = "Grad" then 3 else 99

/-- `TEAM_SHEET_MAP.get(team_name, team_name)`. -/
def TEAM_SHEET_MAP : String → String := fun team =>
  if team = "Physio_North" then "KPI Dashboard North"
  else if team = "Physio_South" then "KPI Dashboard South"
  else if team = "OT" then "KPI Dashboard OT"
  else team

/-- `TEAM_TABLES.get(team_name, [])`. -/
def TEAM_TABLES : String → List String := fun team =>
  if team = "Physio_North" then
    ["Billings_North", "Ceased_North", "Documentation_North", "Admin_North",
     "Attitude_North"]
  else if team = "Physio_South" then
    ["Billings_South", "Ceased_South", "Documentation_South", "Admin_South",
     "Attitude_South"]
  else if team = "OT" then
    ["Billings_OT", "Compliance_OT", "ReferrerEng_OT", "Capacity_OT",
     "Attitude_OT"]
  else []

/-- Sort key comparison of `get_therapists_for_team`: team leaders first,
then `COMPETENCY_ORDER.get(t.get('Competency','Grad'), 99)`, then name. -/
def therapistSortKeyLt (a b : Therapist) : Bool :=
  let la := if a.isTeamLeader then 0 else 1
  let lb := if b.isTeamLeader then 0 else 1
  let ca := COMPETENCY_ORDER (a.competency.getD "Grad")
  let cb := COMPETENCY_ORDER (b.competency.getD "Grad")
  la < lb || (la = lb && (ca < cb || (ca = cb && pyStrLt a.name.data b.name.data)))

/-- `get_therapists_for_team(config, team_name)` of team_table_sync.py. -/
def get_therapists_for_team (cfg : Config) (teamName : String) : List Therapist :=
  stableSortBy therapistSortKeyLt (cfg.therapists.filter (fun t => t.team = teamName))

/-- A worksheet / workbook: the named tables and the cell store.  (Cell
styling — fills and fonts — lives outside this value model.) -/
structure WS where
  tables : List (String × Table)
  grid : Grid

/-- One row read from a table by `get_table_rows`. -/
structure TRow where
  rowIdx : Nat
  name : String
  data : List (Option Val)

/-- The full row of cell values `[ws.cell(row, c).value for c in min_col..max_col]`. -/
def readRowData (g : Grid) (t : Table) (r : Nat) : List (Option Val) :=
  (List.range (t.maxCol - t.minCol + 1)).map (fun i => g r (t.minCol + i))

/-- `get_table_rows(ws, table_name)` of team_table_sync.py: the data rows
whose first cell is truthy, with stripped name and raw data vector. -/
def get_table_rows (g : Grid) (t : Table) : List TRow :=
  (List.range' (t.minRow + 1) (t.maxRow - t.minRow)).filterMap (fun r =>
    match g r t.minCol with
    | some v =>
      if valTruthy v then some ⟨r, pyStrip (valToStr v), readRowData g t r⟩ else none
    | none => none)

/-- Proof auxiliary: the row list a fully-synced table presents to
`get_table_rows` — one row per therapist starting at row `r`, each carrying
its current data vector. -/
def rowsFor (g : Grid) (t : Table) : Nat → List Therapist → List TRow
  | _, [] => []
  | r, th :: rest => ⟨r, th.name, readRowData g t r⟩ :: rowsFor g t (r + 1) rest

/-- `is_placeholder_row(name)` of team_table_sync.py. -/
def is_placeholder_row (name : String) : Bool :=
  if name = "" then true
  else listContainsSub "PLACEHOLDER".data (pyUpper name).data ||
    listStartsWith (pyUpper name).data "PLACEHOLDER".data

/-- The cell writes of one therapist row in the rewrite loop of
`sync_team_tables`: column offsets `0 .. col_count - 2` (the last column is
skipped to preserve the Average formulas); offset 0 gets the name, the rest
copy the therapist's historical values when the name was already present. -/
def rowWrites (t : Table) (cd : List (String × List (Option Val))) (i : Nat)
    (th : Therapist) : List CellWrite :=
  (List.range (t.maxCol - t.minCol)).map (fun off =>
    (t.minRow + 1 + i, t.minCol + off,
      if off = 0 then some (.str th.name)
      else
        match dictGetLast cd th.name with
        | some dataRow => if off < dataRow.length then dataRow.getD off none else none
        | none => none))

/-- The writes of the whole `for i, therapist in enumerate(therapists)` loop. -/
def therapWrites (t : Table) (cd : List (String × List (Option Val))) :
    Nat → List Therapist → List CellWrite
  | _, [] => []
  | i, th :: rest => rowWrites t cd i th ++ therapWrites t cd (i + 1) rest

/-- The writes of the excess-row clearing loop (`row_delta < 0`): every
column except the rightmost, in rows `first_data_row + new_row_count ..
max_row`, set to `None`. -/
def clearWrites (t : Table) (n : Nat) : List CellWrite :=
  (List.range' (t.minRow + 1 + n) (t.maxRow + 1 - (t.minRow + 1 + n))).flatMap
    (fun r => (List.range (t.maxCol - t.minCol)).map
      (fun j => (r, t.minCol + j, (none : Option Val))))

/-- Processing of one table inside `sync_team_tables`: read current rows,
compute the added/removed tallies, rewrite the data rows in roster order and
clear excess rows.  Returns the new grid and the (added, removed) tallies. -/
def processTable (therapists : List Therapist) (rowDelta : Int) (g : Grid)
    (t : Table) : Grid × Nat × Nat :=
  let rows := get_table_rows g t
  let cd := rows.map (fun r => (r.name, r.data))
  let curNames := (rows.map (·.name)).dedup
  let expNames := (therapists.map (·.name)).dedup
  let added := (expNames.filter (fun nm => !(curNames.contains nm))).length
  let removed := (curNames.filter (fun nm =>
    !(expNames.contains nm) || is_placeholder_row nm)).length
  let writes := therapWrites t cd 0 therapists ++
    (if rowDelta < 0 then clearWrites t therapists.length else [])
  (applyWrites g writes, added, removed)

/-- The per-table loop of `sync_team_tables` (delta <= 0 path): process
each of the team's tables in order, skipping missing ones, threading the
grid and the (tables, added, removed, rows_cleared) tallies. -/
def syncFold (ws : WS) (ths : List Therapist) (rowDelta : Int) :
    List String → Grid × Nat × Nat × Nat × Nat → Grid × Nat × Nat × Nat × Nat
  | [], acc => acc
  | nm :: rest, acc =>
    match List.lookup nm ws.tables with
    | none => syncFold ws ths rowDelta rest acc
    | some t =>
      let p := processTable ths rowDelta acc.1 t
      syncFold ws ths rowDelta rest
        (p.1, acc.2.1 + 1, acc.2.2.1 + p.2.1, acc.2.2.2.1 + p.2.2,
          if rowDelta < 0 then (-rowDelta).toNat else acc.2.2.2.2)

/-- A deferred manual-action record. -/
structure PendingChange where
  sheetName : String
  teamName : String
  action : String
  rowCount : Nat
deriving DecidableEq, Repr

/-- The statistics dict returned by `sync_team_tables`. -/
structure SyncStats where
  tables : Nat
  added : Nat
  removed : Nat
  skipped : Bool
  pending : Option PendingChange
deriving DecidableEq, Repr

/-- `sync_team_tables(ws, team_name, config)` of team_table_sync.py.
The declared table references are never modified; growing (`row_delta > 0`)
returns before any write; shrinking clears values and reports a pending
delete. -/
def sync_team_tables (ws : WS) (teamName : String) (cfg : Config) :
    WS × SyncStats :=
  let sheetName := TEAM_SHEET_MAP teamName
  let therapists := get_therapists_for_team cfg teamName
  if therapists.isEmpty then (ws, ⟨0, 0, 0, false, none⟩)
  else
    let tableNames := TEAM_TABLES teamName
    let newRowCount := therapists.length
    match tableNames.head? with
    | none => (ws, ⟨0, 0, 0, true, none⟩)
    | some firstName =>
      match List.lookup firstName ws.tables with
      | none => (ws, ⟨0, 0, 0, true, none⟩)
      | some ft =>
        let currentRowCount := ft.maxRow - ft.minRow
        let rowDelta : Int := (newRowCount : Int) - (currentRowCount : Int)
        if 0 < rowDelta then
          (ws, ⟨0, 0, 0, true, some ⟨sheetName, teamName, "add", rowDelta.toNat⟩⟩)
        else
          let res := syncFold ws therapists rowDelta tableNames (ws.grid, 0, 0, 0, 0)
          let pending : Option PendingChange :=
            if 0 < res.2.2.2.2 then
              some ⟨sheetName, teamName, "delete", res.2.2.2.2⟩
            else none
          ({ tables := ws.tables, grid := res.1 },
           ⟨res.2.1, res.2.2.1, res.2.2.2.1, false, pending⟩)

/- ------------------------------------------------------------------ -/
/- team_table_sync.py : FTE table sync                                 -/
/- ------------------------------------------------------------------ -/

/-- The per-team order of the FTE sort key. -/
def FTE_TEAM_ORDER : String → Nat := fun team =>
  if team = "Physio_North" then 1 else if team = "Physio_South" then 2
  else if team = "OT" then 3 else 99

/-- Sort key comparison of `sync_fte_table`: team, then leaders first, then
competency order, then name. -/
def fteSortKeyLt (a b : Therapist) : Bool :=
  let ta := FTE_TEAM_ORDER a.team
  let tb := FTE_TEAM_ORDER b.team
  let la := if a.isTeamLeader then 0 else 1
  let lb := if b.isTeamLeader then 0 else 1
  let ca := COMPETENCY_ORDER (a.competency.getD "Grad")
  let cb := COMPETENCY_ORDER (b.competency.getD "Grad")
  ta < tb || (ta = tb && (la < lb || (la = lb &&
    (ca < cb || (ca = cb && pyStrLt a.name.data b.name.data)))))

/-- The roster written by the FTE sync: only therapists with
`t.get('IsActive', True)` truthy, in the FTE sort order. -/
def fteActiveSorted (cfg : Config) : List Therapist :=
  stableSortBy fteSortKeyLt (cfg.therapists.filter (fun th => th.isActive.getD true))

/-- Writes of the FTE data loop: name, `t.get('FTE', 1)` and team into
columns A..C of row `first_data_row + i`. -/
def fteWrites (t : Table) : Nat → List Therapist → List CellWrite
  | _, [] => []
  | i, th :: rest =>
    (t.minRow + 1 + i, t.minCol, some (.str th.name)) ::
    (t.minRow + 1 + i, t.minCol + 1, some (.num (th.fte.getD 1))) ::
    (t.minRow + 1 + i, t.minCol + 2, some (.str th.team)) ::
    fteWrites t (i + 1) rest

/-- Writes of the FTE clearing loop (columns A..C of rows
`new_max_row + 1 .. max_row`). -/
def fteClearWrites (t : Table) (newMaxRow : Nat) : List CellWrite :=
  (List.range' (newMaxRow + 1) (t.maxRow - newMaxRow)).flatMap (fun r =>
    [(r, t.minCol, (none : Option Val)), (r, t.minCol + 1, none),
     (r, t.minCol + 2, none)])

/-- The statistics dict returned by `sync_fte_table`. -/
structure FteStats where
  rows : Nat
  added : Nat
  removed : Nat
  skipped : Bool
deriving DecidableEq, Repr

/-- `sync_fte_table(wb, config)` of team_table_sync.py.  Unlike the team
tables, the declared reference of `FTETable` IS resized to exactly fit the
active roster (`table.ref = ...`). -/
def sync_fte_table (ws : WS) (cfg : Config) : WS × FteStats :=
  match List.lookup "FTETable" ws.tables with
  | none => (ws, ⟨0, 0, 0, true⟩)
  | some t =>
    let therapists := fteActiveSorted cfg
    let n := therapists.length
    let currentRowCount := t.maxRow - t.minRow
    let rowDelta : Int := (n : Int) - (currentRowCount : Int)
    let newMaxRow := t.minRow + n
    let writes := fteWrites t 0 therapists ++
      (if rowDelta < 0 then fteClearWrites t newMaxRow else [])
    let rowsCleared := if rowDelta < 0 then (-rowDelta).toNat else 0
    let newT : Table := { t with maxRow := newMaxRow }
    ({ tables := upsert "FTETable" newT ws.tables, grid := applyWrites ws.grid writes },
     ⟨n, if 0 < rowDelta then rowDelta.toNat else 0, rowsCleared, false⟩)

/- ------------------------------------------------------------------ -/
/- individual_sheet_v2.py : KPI data writes                            -/
/- ------------------------------------------------------------------ -/

/-- `MONTH_COLUMNS` of individual_sheet_v2.py: month name (short and long
spellings) to worksheet column C..N. -/
def MONTH_COLUMNS_v2 : String → Option Nat := fun m =>
  if m = "Jan" ∨ m = "January" then some 3
  else if m = "Feb" ∨ m = "February" then some 4
  else if m = "Mar" ∨ m = "March" then some 5
  else if m = "Apr" ∨ m = "April" then some 6
  else if m = "May" then some 7
  else if m = "Jun" ∨ m = "June" then some 8
  else if m = "Jul" ∨ m = "July" then some 9
  else if m = "Aug" ∨ m = "August" then some 10
  else if m = "Sep" ∨ m = "Sept" ∨ m = "September" then some 11
  else if m = "Oct" ∨ m = "October" then some 12
  else if m = "Nov" ∨ m = "November" then some 13
  else if m = "Dec" ∨ m = "December" then some 14
  else none

/-- `KPI_ROWS_PHYSIO` of individual_sheet_v2.py. -/
def KPI_ROWS_PHYSIO : List (String × Nat) :=
  [("BillingsKPI", 4), ("Ceased Services", 5), ("Documentation", 6),
   ("Admin", 7), ("Attitude", 8)]

/-- `KPI_ROWS_OT` of individual_sheet_v2.py. -/
def KPI_ROWS_OT : List (String × Nat) :=
  [("BillingsKPI", 4), ("Compliance", 5), ("Referrer Engagement", 6),
   ("Capacity", 7), ("Attitude", 8)]

/-- The writes of one record in the KPI-data loop of
`update_individual_sheet_v2` (lines 646-656): skip records whose month is
not a column; for each KPI row, assign the cell only when
`record.get(kpi_name)` is not `None`. -/
def write_kpi_record (kpiRows : List (String × Nat)) (g : Grid)
    (rec : KpiRecord) : Grid :=
  match MONTH_COLUMNS_v2 rec.month with
  | none => g
  | some col =>
    kpiRows.foldl (fun g kr =>
      match List.lookup kr.1 rec.values with
      | some (some v) => setCell g kr.2 col (some v)
      | some none => g
      | none => g) g

/-- The whole KPI-data write loop of `update_individual_sheet_v2` over the
therapist's records. -/
def write_kpi_data (kpiRows : List (String × Nat)) (records : List KpiRecord)
    (g : Grid) : Grid :=
  records.foldl (write_kpi_record kpiRows) g

/- ------------------------------------------------------------------ -/
/- Rectangle disjointness of named tables                              -/
/- ------------------------------------------------------------------ -/

/-- The data region of a table: rows strictly below the header up to
`maxRow`, columns `minCol` up to (excluding) `maxCol` — exactly the cells
`sync_team_tables` may write. -/
def inRect (t : Table) (r c : Nat) : Prop :=
  t.minRow < r ∧ r ≤ t.maxRow ∧ t.minCol ≤ c ∧ c < t.maxCol

/-- Decidable separation of two table rectangles (row spans or column spans
do not overlap). -/
def rectDisjoint (a b : Table) : Prop :=
  a.maxRow ≤ b.minRow ∨ b.maxRow ≤ a.minRow ∨
  a.maxCol ≤ b.minCol ∨ b.maxCol ≤ a.minCol

instance (a b : Table) : Decidable (rectDisjoint a b) := by
  unfold rectDisjoint
  infer_instance

instance (t : Table) (r c : Nat) : Decidable (inRect t r c) := by
  unfold inRect
  infer_instance

/- ------------------------------------------------------------------ -/
/- Concrete example data                                               -/
/- ------------------------------------------------------------------ -/

/-- 3.9 as an exact rational (explicit normal form, so that kernel
evaluation does not need to normalize a division). -/
def q39_10 : ℚ := ⟨39, 10, by decide, by decide⟩

/-- 6.1 as an exact rational. -/
def q61_10 : ℚ := ⟨61, 10, by decide, by decide⟩

/-- 5.2 as an exact rational. -/
def q26_5 : ℚ := ⟨26, 5, by decide, by decide⟩

/-- 4.3 as an exact rational. -/
def q43_10 : ℚ := ⟨43, 10, by decide, by decide⟩

/-- A canonical month-to-column map: Jan..Dec in columns C..N (3..14),
as in the team tables. -/
def stdMonthCol : Nat → Option Nat := fun m =>
  if 1 ≤ m ∧ m ≤ 12 then some (m + 2) else none

/-- Competency history with one mid-January change: CA from June 2025,
Senior effective 20 Jan 2026 (so Jan 2026 is still CA at the 15th). -/
def histChris : List CompRecord :=
  [ ⟨"Chris", some ⟨2025, 6, 1⟩, some "CA"⟩,
    ⟨"Chris", some ⟨2026, 1, 20⟩, some "Senior"⟩ ]

/-- Team-average threshold history whose `Team` field is spelled `"ot"` in
lower case, with a March 2026 threshold change. -/
def histTeamLower : List TeamAveRecord :=
  [ ⟨"ot", some ⟨2025, 6, 1⟩, some 3, some 4, some 5, some 6⟩,
    ⟨"ot", some ⟨2026, 3, 1⟩, some 3, some q43_10, some 5, some 6⟩ ]

/-- The loader example sheet: header `[Name, Jan, Feb, Average]` in row 1
and one data row `("Chris", 5.2, blank, 5.2)` in row 2. -/
def loaderExampleGrid : Grid := fun r c =>
  if r = 1 then
    if c = 1 then some (.str "Name")
    else if c = 2 then some (.str "Jan")
    else if c = 3 then some (.str "Feb")
    else if c = 4 then some (.str "Average")
    else none
  else if r = 2 then
    if c = 1 then some (.str "Chris")
    else if c = 2 then some (.num q26_5)
    else if c = 4 then some (.num q26_5)
    else none
  else none

/-- The named-table rectangle of the loader example. -/
def loaderExampleTable : Table := ⟨1, 1, 4, 2⟩

/-- Two-member Physio_North roster. -/
def cfgTwo : Config :=
  ⟨[ ⟨"Alice", "Physio_North", some "Senior", some true, true, some 1⟩,
     ⟨"Bob", "Physio_North", some "Grad", some true, false, some 1⟩ ]⟩

/-- One-member Physio_North roster. -/
def cfgOne : Config :=
  ⟨[ ⟨"Alice", "Physio_North", some "Senior", some true, true, some 1⟩ ]⟩

/-- A roster with one active and one inactive therapist. -/
def cfgMixed : Config :=
  ⟨[ ⟨"Alice", "Physio_North", some "Senior", some true, true, some 1⟩,
     ⟨"Bob", "Physio_North", some "Grad", some false, false, some (4/5)⟩ ]⟩

/-- A workbook holding only the first Physio_North table, with a single
data row (row 11 under the header row 10). -/
def wsGrow : WS :=
  { tables := [("Billings_North", ⟨2, 10, 5, 11⟩)], grid := fun _ _ => none }

/-- The five Physio_North tables of the shrink example: parallel rectangles
with header rows 10, 20, 30, 40, 50, three data rows each, columns B..E. -/
def shrinkT : String → Table := fun nm =>
  if nm = "Billings_North" then ⟨2, 10, 5, 13⟩
  else if nm = "Ceased_North" then ⟨2, 20, 5, 23⟩
  else if nm = "Documentation_North" then ⟨2, 30, 5, 33⟩
  else if nm = "Admin_North" then ⟨2, 40, 5, 43⟩
  else if nm = "Attitude_North" then ⟨2, 50, 5, 53⟩
  else ⟨0, 0, 0, 0⟩

/-- The workbook of the shrink example: all five Physio_North tables,
blank cells. -/
def wsShrink : WS :=
  { tables :=
      [ ("Billings_North", shrinkT "Billings_North"),
        ("Ceased_North", shrinkT "Ceased_North"),
        ("Documentation_North", shrinkT "Documentation_North"),
        ("Admin_North", shrinkT "Admin_North"),
        ("Attitude_North", shrinkT "Attitude_North") ],
    grid := fun _ _ => none }

/-- A workbook holding an FTETable with two data rows. -/
def wsFte : WS :=
  { tables := [("FTETable", ⟨1, 3, 15, 5⟩)], grid := fun _ _ => none }

/-- A record list exercising the individual-sheet write loop: one May
record with a real billing value and an explicitly null documentation
value. -/
def recsV2 : List KpiRecord :=
  [ ⟨"Chris", "May", [("BillingsKPI", some (.num 5)), ("Documentation", none)]⟩ ]

/-- Proof auxiliary: a table whose data rows currently present exactly the
roster `ths` — row `i` holds therapist `i`'s name in the first column, and
(when the sync ran in shrink mode) all excess trailing cells short of the
rightmost column are blank. -/
def syncedTable (ths : List Therapist) (rowDelta : Int) (g : Grid)
    (t : Table) : Prop :=
  (∀ (pre : List Therapist) (th : Therapist) (post : List Therapist),
    ths = pre ++ th :: post →
    g (t.minRow + 1 + pre.length) t.minCol = some (.str th.name)) ∧
  (rowDelta < 0 → ∀ r c, t.minRow + 1 + ths.length ≤ r → r ≤ t.maxRow →
    t.minCol ≤ c → c < t.maxCol → g r c = none)

/- ================================================================== -/
/- Helper lemmas                                                       -/
/- ================================================================== -/

theorem stableInsert_perm (lt : α → α → Bool) (a : α) (l : List α) :
    (stableInsert lt a l).Perm (a :: l) := by
  induction l with
  | nil => simp [stableInsert]
  | cons b bs ih =>
    simp only [stableInsert]
    by_cases h : lt b a
    · simp only [h, if_pos]
      exact (ih.cons b).trans (List.Perm.swap a b bs)
    · simp [h]

theorem stableSortBy_perm (lt : α → α → Bool) (l : List α) :
    (stableSortBy lt l).Perm l := by
  induction l with
  | nil => simp [stableSortBy]
  | cons a as ih =>
    exact (stableInsert_perm lt a (stableSortBy lt as)).trans (ih.cons a)

theorem setCell_same (g : Grid) (r c : Nat) (v : Option Val) :
    setCell g r c v r c = v := by
  simp [setCell]

theorem setCell_other (g : Grid) (r c : Nat) (v : Option Val) (r2 c2 : Nat)
    (h : ¬(r2 = r ∧ c2 = c)) : setCell g r c v r2 c2 = g r2 c2 := by
  simp [setCell, h]

theorem setCell_id (g : Grid) (r c : Nat) (v : Option Val) (h : g r c = v) :
    setCell g r c v = g := by
  funext r2 c2
  by_cases h2 : r2 = r ∧ c2 = c
  · obtain ⟨rfl, rfl⟩ := h2
    simp [setCell, h]
  · simp [setCell, h2]

theorem applyWrites_append (g : Grid) (l1 l2 : List CellWrite) :
    applyWrites g (l1 ++ l2) = applyWrites (applyWrites g l1) l2 := by
  simp [applyWrites, List.foldl_append]

theorem applyWrites_notin (g : Grid) (l : List CellWrite) (r c : Nat)
    (h : ∀ w ∈ l, ¬(w.1 = r ∧ w.2.1 = c)) : applyWrites g l r c = g r c := by
  induction l generalizing g with
  | nil => rfl
  | cons w rest ih =>
    have hw := h w (by simp)
    calc applyWrites (setCell g w.1 w.2.1 w.2.2) rest r c
        = setCell g w.1 w.2.1 w.2.2 r c := ih _ (fun w2 h2 => h w2 (by simp [h2]))
      _ = g r c := by
          apply setCell_other
          intro hcon
          exact hw ⟨hcon.1.symm ▸ rfl, hcon.2.symm ▸ rfl⟩

theorem applyWrites_id (g : Grid) (l : List CellWrite)
    (h : ∀ w ∈ l, g w.1 w.2.1 = w.2.2) : applyWrites g l = g := by
  induction l with
  | nil => rfl
  | cons w rest ih =>
    have : setCell g w.1 w.2.1 w.2.2 = g := setCell_id _ _ _ _ (h w (by simp))
    show applyWrites (setCell g w.1 w.2.1 w.2.2) rest = g
    rw [this]
    exact ih (fun w2 h2 => h w2 (by simp [h2]))

theorem applyWrites_all_none (g : Grid) (l : List CellWrite) (r c : Nat)
    (hv : ∀ w ∈ l, w.2.2 = none)
    (hex : ∃ w ∈ l, w.1 = r ∧ w.2.1 = c) : applyWrites g l r c = none := by
  induction l generalizing g with
  | nil => simp at hex
  | cons w rest ih =>
    by_cases hr : ∃ w2 ∈ rest, w2.1 = r ∧ w2.2.1 = c
    · exact ih _ (fun w2 h2 => hv w2 (by simp [h2])) hr
    · obtain ⟨w2, hw2, hrc⟩ := hex
      rw [List.mem_cons] at hw2
      rcases hw2 with hw2 | hw2
      · show applyWrites (setCell g w.1 w.2.1 w.2.2) rest r c = none
        rw [applyWrites_notin _ _ _ _ (fun w3 h3 hcc => hr ⟨w3, h3, hcc⟩)]
        subst hw2
        rw [← hrc.1, ← hrc.2, setCell_same]
        exact hv w2 (by simp)
      · exact absurd ⟨w2, hw2, hrc⟩ hr

theorem applyWrites_rowlike_target (g : Grid) (r0 c0 : Nat) (k : Nat)
    (f : Nat → Option Val) (off : Nat) (hoff : off < k) :
    applyWrites g ((List.range k).map (fun o => (r0, c0 + o, f o))) r0 (c0 + off) =
      f off := by
  induction k generalizing g with
  | zero => omega
  | succ k ih =>
    rw [List.range_succ, List.map_append, applyWrites_append]
    by_cases h : off = k
    · subst h
      show setCell (applyWrites g _) r0 (c0 + off) (f off) r0 (c0 + off) = f off
      exact setCell_same _ _ _ _
    · have hlt : off < k := by omega
      show setCell (applyWrites g _) r0 (c0 + k) (f k) r0 (c0 + off) = f off
      rw [setCell_other _ _ _ _ _ _ (by
        intro hcon
        exact h (by omega))]
      exact ih g hlt

theorem getD_map_range (f : Nat → α) (k i : Nat) (d : α) (h : i < k) :
    ((List.range k).map f).getD i d = f i := by
  rw [List.getD_eq_getElem?_getD, List.getElem?_map, List.getElem?_range h]
  rfl

theorem getLastD_map_range' (f : Nat → α) (s n : Nat) (d : α) :
    ((List.range' s n).map f).getLastD d =
      if n = 0 then d else f (s + n - 1) := by
  induction n generalizing s d with
  | zero => rfl
  | succ n ih =>
    rw [List.range'_succ, List.map_cons, List.getLastD_cons, ih]
    rcases Nat.eq_zero_or_pos n with h | h
    · subst h
      simp
    · have h1 : ¬(n = 0) := by omega
      have h2 : ¬(n + 1 = 0) := by omega
      simp only [h1, h2, if_false]
      congr 1
      omega

theorem filterMap_eq_map_of (l : List α) (f : α → Option β) (g : α → β)
    (h : ∀ a ∈ l, f a = some (g a)) : l.filterMap f = l.map g := by
  induction l with
  | nil => rfl
  | cons a as ih =>
    rw [List.filterMap_cons, h a (by simp), List.map_cons,
      ih (fun a2 h2 => h a2 (by simp [h2]))]

theorem latestApplicable_go (dateOf : α → Option HDate) (g : α → β)
    (target : HDate) (l : List α) (acc : Option β) :
    l.foldl (fun acc r =>
      match dateOf r with
      | some d => if HDate.le d target then some (g r) else acc
      | none => acc) acc =
    ((l.filter (fun r =>
        match dateOf r with
        | some d => HDate.le d target
        | none => false)).getLast?).elim acc (fun r => some (g r)) := by
  induction l generalizing acc with
  | nil => rfl
  | cons r rest ih =>
    rw [List.foldl_cons, ih, List.filter_cons]
    by_cases hp : (match dateOf r with
        | some d => HDate.le d target
        | none => false) = true
    · have hstep : (match dateOf r with
          | some d => if HDate.le d target then some (g r) else acc
          | none => acc) = some (g r) := by
        cases hd : dateOf r with
        | none => rw [hd] at hp; simp at hp
        | some d =>
          rw [hd] at hp
          have hp2 : HDate.le d target = true := hp
          simp [hp2]
      rw [hstep, if_pos hp, List.getLast?_cons]
      cases hlast : (rest.filter (fun r =>
          match dateOf r with
          | some d => HDate.le d target
          | none => false)).getLast? with
      | none => simp [hlast]
      | some r2 => simp [hlast]
    · have hstep : (match dateOf r with
          | some d => if HDate.le d target then some (g r) else acc
          | none => acc) = acc := by
        cases hd : dateOf r with
        | none => rfl
        | some d =>
          rw [hd] at hp
          simp only [Bool.not_eq_true] at hp
          simp [hp]
      rw [hstep, if_neg hp]

theorem latestApplicable_spec (dateOf : α → Option HDate) (g : α → β)
    (target : HDate) (l : List α) :
    latestApplicable dateOf g target l = specLatestApplicable dateOf g target l := by
  unfold latestApplicable specLatestApplicable
  rw [latestApplicable_go]
  cases (l.filter (fun r =>
      match dateOf r with
      | some d => HDate.le d target
      | none => false)).getLast? with
  | none => rfl
  | some r => rfl

theorem latestApplicable_nil (dateOf : α → Option HDate) (g : α → β)
    (target : HDate) : latestApplicable dateOf g target [] = none := rfl

theorem groupGo_all_eq [DecidableEq κ] (key : τ → κ) (cur : τ) (s e : Nat)
    (l : List (τ × Nat)) (h : ∀ p ∈ l, key p.1 = key cur) :
    groupGo key cur s e l = [(cur, s, (l.map Prod.snd).getLastD e)] := by
  induction l generalizing e with
  | nil => rfl
  | cons p rest ih =>
    obtain ⟨t, col⟩ := p
    have hk : key t = key cur := h (t, col) (by simp)
    rw [List.map_cons, List.getLastD_cons]
    show groupGo key cur s e ((t, col) :: rest) = _
    rw [groupGo, if_pos hk]
    exact ih _ (fun p2 h2 => h p2 (by simp [h2]))

theorem groupGo_split [DecidableEq κ] (key : τ → κ) (cur : τ) (s e : Nat)
    (l1 l2 : List (τ × Nat)) (t2 : τ) (col2 : Nat)
    (h1 : ∀ p ∈ l1, key p.1 = key cur) (hne : ¬(key t2 = key cur))
    (h2 : ∀ p ∈ l2, key p.1 = key t2) :
    groupGo key cur s e (l1 ++ (t2, col2) :: l2) =
      [(cur, s, (l1.map Prod.snd).getLastD e),
       (t2, col2, (l2.map Prod.snd).getLastD col2)] := by
  induction l1 generalizing e with
  | nil =>
    rw [List.nil_append]
    show groupGo key cur s e ((t2, col2) :: l2) = _
    rw [groupGo, if_neg hne, groupGo_all_eq key t2 col2 col2 l2 h2]
    rfl
  | cons p rest ih =>
    obtain ⟨t, col⟩ := p
    have hk : key t = key cur := h1 (t, col) (by simp)
    rw [List.cons_append]
    show groupGo key cur s e ((t, col) :: (rest ++ (t2, col2) :: l2)) = _
    rw [groupGo, if_pos hk, ih _ (fun p2 hp2 => h1 p2 (by simp [hp2])),
      List.map_cons, List.getLastD_cons]

/- ================================================================== -/
/- C7 : billing rule banding                                           -/
/- ================================================================== -/

/-- C7 counterexample: under the claim's stated rule-evaluation semantics —
all matching rules are evaluated and the LAST added wins — the rule list
emitted for green_min=4.0, blue_above=6.0 colours the value 6.1 green, not
blue: both the `> 6`→blue rule (added second) and the `>= 4`→green rule
(added third) match, and the later-added green rule would win. -/
theorem C7_counterexample :
    evalRulesLastWins (apply_billing_rules ⟨none, some 4, none, some 6⟩)
      (some q61_10) = some "green" ∧
    ¬(evalRulesLastWins (apply_billing_rules ⟨none, some 4, none, some 6⟩)
      (some q61_10) = some "blue") := by
  constructor
  · decide
  · decide

/-- C7 (amended): with the rules added in the order blank→white,
`> blue_above`→blue, `>= green_min`→green, `< green_min`→red, and the
engine giving priority to the EARLIEST-added matching rule (openpyxl
assigns priority in order of addition and the highest-priority rule
supplies the fill), the net effect is the claimed banding: blank→white,
below green_min→red, green_min..blue_above→green, above blue_above→blue;
`apply_billing_formatting_v2` emits the identical rule list. -/
theorem C7_billing_net_effect (th : Thresholds) (gm ba : ℚ)
    (hgm : th.green_min = some gm) (hba : th.blue_above = some ba)
    (hle : gm ≤ ba) :
    (evalRulesFirstWins (apply_billing_rules th) none = some "white") ∧
    (∀ v : ℚ, v < gm →
      evalRulesFirstWins (apply_billing_rules th) (some v) = some "red") ∧
    (∀ v : ℚ, gm ≤ v → v ≤ ba →
      evalRulesFirstWins (apply_billing_rules th) (some v) = some "green") ∧
    (∀ v : ℚ, ba < v →
      evalRulesFirstWins (apply_billing_rules th) (some v) = some "blue") ∧
    apply_billing_formatting_v2 th = apply_billing_rules th := by
  refine ⟨?_, ?_, ?_, ?_, rfl⟩
  · simp [evalRulesFirstWins, apply_billing_rules, ruleMatches, List.find?]
  · intro v hv
    have h1 : ¬(ba < v) := by linarith
    have h2 : ¬(gm ≤ v) := by linarith
    simp [evalRulesFirstWins, apply_billing_rules, ruleMatches, List.find?,
      hgm, hba, h1, h2, hv]
  · intro v hv1 hv2
    have h1 : ¬(ba < v) := by linarith
    simp [evalRulesFirstWins, apply_billing_rules, ruleMatches, List.find?,
      hgm, hba, h1, hv1]
  · intro v hv
    simp [evalRulesFirstWins, apply_billing_rules, ruleMatches, List.find?,
      hgm, hba, hv]

/-- C7 witness: the amended banding at green_min=4.0, blue_above=6.0 on the
spec's sample points 3.9, 4.0, 6.0, 6.1 and blank. -/
theorem C7_billing_net_effect_witness :
    evalRulesFirstWins (apply_billing_rules ⟨none, some 4, none, some 6⟩)
      (some q39_10) = some "red" ∧
    evalRulesFirstWins (apply_billing_rules ⟨none, some 4, none, some 6⟩)
      (some 4) = some "green" ∧
    evalRulesFirstWins (apply_billing_rules ⟨none, some 4, none, some 6⟩)
      (some 6) = some "green" ∧
    evalRulesFirstWins (apply_billing_rules ⟨none, some 4, none, some 6⟩)
      (some q61_10) = some "blue" ∧
    evalRulesFirstWins (apply_billing_rules ⟨none, some 4, none, some 6⟩)
      none = some "white" :=
  ⟨(C7_billing_net_effect _ 4 6 rfl rfl (by decide)).2.1 q39_10 (by decide),
   (C7_billing_net_effect _ 4 6 rfl rfl (by decide)).2.2.1 4 (by decide) (by decide),
   (C7_billing_net_effect _ 4 6 rfl rfl (by decide)).2.2.1 6 (by decide) (by decide),
   (C7_billing_net_effect _ 4 6 rfl rfl (by decide)).2.2.2.1 q61_10 (by decide),
   (C7_billing_net_effect _ 4 6 rfl rfl (by decide)).1⟩

/- ================================================================== -/
/- C10 : individual sheet writes only non-None values                  -/
/- ================================================================== -/

theorem write_kpi_fold_cases (rec : KpiRecord) (col : Nat) (g : Grid)
    (rows : List (String × Nat)) (r c : Nat) :
    (rows.foldl (fun g kr =>
      match List.lookup kr.1 rec.values with
      | some (some v) => setCell g kr.2 col (some v)
      | some none => g
      | none => g) g) r c = g r c ∨
    (c = col ∧ ∃ kpi, (kpi, r) ∈ rows ∧ ∃ v,
      List.lookup kpi rec.values = some (some v) ∧
      (rows.foldl (fun g kr =>
        match List.lookup kr.1 rec.values with
        | some (some v) => setCell g kr.2 col (some v)
        | some none => g
        | none => g) g) r c = some v) := by
  induction rows using List.reverseRecOn with
  | nil => left; rfl
  | append_singleton rows kr ih =>
    rw [List.foldl_append, List.foldl_cons, List.foldl_nil]
    cases hl : List.lookup kr.1 rec.values with
    | none =>
      simp only [hl]
      rcases ih with h | ⟨hc, kpi, hmem, v, hv, heq⟩
      · left; exact h
      · right; exact ⟨hc, kpi, by simp [hmem], v, hv, heq⟩
    | some ov =>
      cases ov with
      | none =>
        simp only [hl]
        rcases ih with h | ⟨hc, kpi, hmem, v, hv, heq⟩
        · left; exact h
        · right; exact ⟨hc, kpi, by simp [hmem], v, hv, heq⟩
      | some v =>
        simp only [hl]
        by_cases ht : r = kr.2 ∧ c = col
        · right
          refine ⟨ht.2, kr.1, by simp [ht.1], v, hl, ?_⟩
          rw [ht.1, ht.2]
          exact setCell_same _ _ _ _
        · rw [setCell_other _ _ _ _ _ _ ht]
          rcases ih with h | ⟨hc, kpi, hmem, v2, hv2, heq⟩
          · left; exact h
          · right; exact ⟨hc, kpi, by simp [hmem], v2, hv2, heq⟩

theorem write_kpi_record_cases (kpiRows : List (String × Nat)) (g : Grid)
    (rec : KpiRecord) (r c : Nat) :
    write_kpi_record kpiRows g rec r c = g r c ∨
    (MONTH_COLUMNS_v2 rec.month = some c ∧
      ∃ kpi, (kpi, r) ∈ kpiRows ∧ ∃ v,
        List.lookup kpi rec.values = some (some v) ∧
        write_kpi_record kpiRows g rec r c = some v) := by
  unfold write_kpi_record
  cases hm : MONTH_COLUMNS_v2 rec.month with
  | none => left; rfl
  | some col =>
    rcases write_kpi_fold_cases rec col g kpiRows r c with h | ⟨hc, kpi, hmem, v, hv, heq⟩
    · left; exact h
    · right
      refine ⟨by rw [hc], kpi, hmem, v, hv, heq⟩

theorem write_kpi_data_append (kpiRows : List (String × Nat))
    (records : List KpiRecord) (rec : KpiRecord) (g : Grid) :
    write_kpi_data kpiRows (records ++ [rec]) g =
      write_kpi_record kpiRows (write_kpi_data kpiRows records g) rec := by
  unfold write_kpi_data
  rw [List.foldl_append, List.foldl_cons, List.foldl_nil]

/-- C10: in the KPI-data write loop of `update_individual_sheet_v2`, a grid
cell is assigned only by a record whose value for the targeted KPI is not
None (in which case the cell ends up holding such a written value); in
particular a record carrying None for a KPI leaves the corresponding cell's
existing value unchanged. -/
theorem C10_none_values_never_written (kpiRows : List (String × Nat))
    (records : List KpiRecord) (g : Grid) (r c : Nat) :
    write_kpi_data kpiRows records g r c = g r c ∨
    ∃ rec ∈ records, MONTH_COLUMNS_v2 rec.month = some c ∧
      ∃ kpi, (kpi, r) ∈ kpiRows ∧ ∃ v,
        List.lookup kpi rec.values = some (some v) ∧
        write_kpi_data kpiRows records g r c = some v := by
  induction records using List.reverseRecOn with
  | nil => left; rfl
  | append_singleton records rec ih =>
    rw [write_kpi_data_append]
    rcases write_kpi_record_cases kpiRows (write_kpi_data kpiRows records g) rec r c with
      h | ⟨hm, kpi, hmem, v, hv, heq⟩
    · rcases ih with h2 | ⟨rec2, hrec2, hm2, kpi2, hmem2, v2, hv2, heq2⟩
      · left
        rw [h]
        exact h2
      · right
        refine ⟨rec2, by simp [hrec2], hm2, kpi2, hmem2, v2, hv2, ?_⟩
        rw [h]
        exact heq2
    · right; exact ⟨rec, by simp, hm, kpi, hmem, v, hv, heq⟩

/- ================================================================== -/
/- C2 : resolver None-fallback cases                                   -/
/- ================================================================== -/

theorem setLastEnd_length (a : Nat) (l : List (τ × Nat × Nat)) :
    (setLastEnd a l).length = l.length := by
  induction l with
  | nil => rfl
  | cons x rest ih =>
    cases rest with
    | nil => rfl
    | cons y r2 =>
      show (x :: setLastEnd a (y :: r2)).length = _
      simp only [List.length_cons]
      rw [ih]
      simp

theorem groupRanges_length_le_one [DecidableEq κ] (key : τ → κ)
    (l : List (τ × Nat)) (h : ∀ p1 ∈ l, ∀ p2 ∈ l, key p1.1 = key p2.1) :
    (groupRanges key l).length ≤ 1 := by
  cases l with
  | nil => simp [groupRanges]
  | cons p rest =>
    obtain ⟨t, col⟩ := p
    rw [groupRanges, groupGo_all_eq key t col col rest
      (fun p2 h2 => h p2 (by simp [h2]) (t, col) (by simp))]
    simp

/-- C2: each range resolver returns `None` (fall back to a single static
regime) when the subject has no matching history records with a non-null
EffectiveDate, when the year is falsy, or when every month resolves to the
same regime (single-range collapse, keyed by the competency label for
therapists and by the (green_min, blue_above) pair for teams). -/
theorem C2_none_fallback (tname team : String) (year : Nat)
    (mc : Nat → Option Nat) (avg : Option Nat)
    (hist : List CompRecord) (thist : List TeamAveRecord) :
    ((filterTherapistRecords tname hist = [] ∨ year = 0) →
      get_competency_ranges_for_therapist tname year mc avg hist = none) ∧
    ((filterTeamRecords team thist = [] ∨ year = 0) →
      get_team_ave_threshold_ranges team year mc avg thist = none) ∧
    ((∀ e1 ∈ therapistMonthEntries (filterTherapistRecords tname hist) year mc,
      ∀ e2 ∈ therapistMonthEntries (filterTherapistRecords tname hist) year mc,
        e1.1 = e2.1) →
      get_competency_ranges_for_therapist tname year mc avg hist = none) ∧
    ((∀ e1 ∈ teamMonthEntries (filterTeamRecords team thist) year mc,
      ∀ e2 ∈ teamMonthEntries (filterTeamRecords team thist) year mc,
        teamThresholdKey e1.1 = teamThresholdKey e2.1) →
      get_team_ave_threshold_ranges team year mc avg thist = none) := by
  refine ⟨?_, ?_, ?_, ?_⟩
  · intro h
    unfold get_competency_ranges_for_therapist
    rcases h with h | h
    · simp [h]
    · simp [h]
  · intro h
    unfold get_team_ave_threshold_ranges
    rcases h with h | h
    · simp [h]
    · simp [h]
  · intro hvar
    unfold get_competency_ranges_for_therapist
    by_cases h1 : ((filterTherapistRecords tname hist).isEmpty ||
        decide (year = 0)) = true
    · simp [h1]
    · simp only [h1, Bool.false_eq_true, if_false]
      by_cases h2 : (therapistMonthEntries (filterTherapistRecords tname hist)
          year mc).isEmpty = true
      · simp [h2]
      · simp only [h2, Bool.false_eq_true, if_false]
        have hlen := groupRanges_length_le_one id _ hvar
        cases avg with
        | none =>
          have : ¬((groupRanges id (therapistMonthEntries
              (filterTherapistRecords tname hist) year mc)).length > 1) := by omega
          simp [this]
        | some a =>
          by_cases h3 : (!(groupRanges id (therapistMonthEntries
              (filterTherapistRecords tname hist) year mc)).isEmpty &&
              !(decide (a = 0))) = true
          · simp only [h3, if_true]
            have : ¬((setLastEnd a (groupRanges id (therapistMonthEntries
                (filterTherapistRecords tname hist) year mc))).length > 1) := by
              rw [setLastEnd_length]
              omega
            simp [this]
          · simp only [h3, Bool.false_eq_true, if_false]
            have : ¬((groupRanges id (therapistMonthEntries
                (filterTherapistRecords tname hist) year mc)).length > 1) := by omega
            simp [this]
  · intro hvar
    unfold get_team_ave_threshold_ranges
    by_cases h1 : ((filterTeamRecords team thist).isEmpty ||
        decide (year = 0)) = true
    · simp [h1]
    · simp only [h1, Bool.false_eq_true, if_false]
      by_cases h2 : (teamMonthEntries (filterTeamRecords team thist)
          year mc).isEmpty = true
      · simp [h2]
      · simp only [h2, Bool.false_eq_true, if_false]
        have hlen := groupRanges_length_le_one teamThresholdKey _ hvar
        cases avg with
        | none =>
          have : ¬((groupRanges teamThresholdKey (teamMonthEntries
              (filterTeamRecords team thist) year mc)).length > 1) := by omega
          simp [this]
        | some a =>
          by_cases h3 : (!(groupRanges teamThresholdKey (teamMonthEntries
              (filterTeamRecords team thist) year mc)).isEmpty &&
              !(decide (a = 0))) = true
          · simp only [h3, if_true]
            have : ¬((setLastEnd a (groupRanges teamThresholdKey (teamMonthEntries
                (filterTeamRecords team thist) year mc))).length > 1) := by
              rw [setLastEnd_length]
              omega
            simp [this]
          · simp only [h3, Bool.false_eq_true, if_false]
            have : ¬((groupRanges teamThresholdKey (teamMonthEntries
                (filterTeamRecords team thist) year mc)).length > 1) := by omega
            simp [this]

/-- C2 witness: the fallback at concrete inputs — a subject with no
matching records, a falsy year, and a single-regime history. -/
theorem C2_none_fallback_witness :
    (filterTherapistRecords "Ghost" histChris = [] ∧
      get_competency_ranges_for_therapist "Ghost" 2026 stdMonthCol (some 15)
        histChris = none) ∧
    (get_competency_ranges_for_therapist "Chris" 0 stdMonthCol (some 15)
      histChris = none) ∧
    (get_competency_ranges_for_therapist "Chris" 2025 stdMonthCol (some 15)
      histChris = none) ∧
    (get_team_ave_threshold_ranges "North" 2026 stdMonthCol (some 15)
      histTeamLower = none) :=
  ⟨⟨by decide,
    (C2_none_fallback "Ghost" "North" 2026 stdMonthCol (some 15) histChris
      histTeamLower).1 (Or.inl (by decide))⟩,
   (C2_none_fallback "Chris" "North" 0 stdMonthCol (some 15) histChris
      histTeamLower).1 (Or.inr rfl),
   (C2_none_fallback "Chris" "North" 2025 stdMonthCol (some 15) histChris
      histTeamLower).2.2.1 (by decide),
   (C2_none_fallback "Chris" "North" 2026 stdMonthCol (some 15) histChris
      histTeamLower).2.1 (Or.inl (by decide))⟩

/- ================================================================== -/
/- C8 : KPI loader record expansion                                    -/
/- ================================================================== -/

/-- C8 counterexample: on the spec's own example — header
`[Name, Jan, Feb, Average]`, one data row `("Chris", 5.2, blank, 5.2)` —
the loader of kpi_dashboard_loader.py emits one record for EVERY entry of
its `MONTH_COLUMNS` (all twelve months AND `Average`), not only Jan and
Feb: 13 records, among them one with Month = "Average" carrying 5.2 and
one with Month = "Mar" carrying None. -/
theorem C8_counterexample :
    ((load_table_records loaderExampleGrid loaderExampleTable "BillingsKPI").map
        (fun r => r.month) = MONTH_COLUMNS) ∧
    ((⟨"Chris", "Average", [("BillingsKPI", some (.num q26_5))]⟩ : KpiRecord) ∈
      load_table_records loaderExampleGrid loaderExampleTable "BillingsKPI") ∧
    ((⟨"Chris", "Mar", [("BillingsKPI", none)]⟩ : KpiRecord) ∈
      load_table_records loaderExampleGrid loaderExampleTable "BillingsKPI") ∧
    ((⟨"Chris", "Jan", [("BillingsKPI", some (.num q26_5))]⟩ : KpiRecord) ∈
      load_table_records loaderExampleGrid loaderExampleTable "BillingsKPI") ∧
    ((⟨"Chris", "Feb", [("BillingsKPI", none)]⟩ : KpiRecord) ∈
      load_table_records loaderExampleGrid loaderExampleTable "BillingsKPI") := by
  refine ⟨?_, ?_, ?_, ?_, ?_⟩ <;> decide

/-- C8 (amended): for every input, the loader emits exactly one record per
(name, m) pair for EVERY m of `MONTH_COLUMNS` — the twelve months plus
`Average` — regardless of which months the table lists, and every record
carries every configured KPI key explicitly (missing values as None). -/
theorem C8_full_expansion
    (kpiData : List (String × List (String × List (String × Option Val)))) :
    ((transform_to_monthly_records (process_dashboard_sheet kpiData)).map
        (fun r => (r.name, r.month)) =
      (allTherapists kpiData).flatMap (fun nm =>
        MONTH_COLUMNS.map (fun m => (nm, m)))) ∧
    (∀ r ∈ transform_to_monthly_records (process_dashboard_sheet kpiData),
      r.values.map Prod.fst = kpiData.map Prod.fst) := by
  constructor
  · unfold transform_to_monthly_records process_dashboard_sheet
    rw [List.flatMap_map, List.map_flatMap]
    congr 1
  · intro r hr
    unfold transform_to_monthly_records process_dashboard_sheet at hr
    rw [List.flatMap_map] at hr
    rw [List.mem_flatMap] at hr
    obtain ⟨nm, hnm, hr⟩ := hr
    rw [List.mem_map] at hr
    obtain ⟨md, hmd, rfl⟩ := hr
    rw [List.mem_map] at hmd
    obtain ⟨m, hm, rfl⟩ := hmd
    simp [List.map_map, Function.comp]

/-- C8 witness: the amended expansion at the example table — the emitted
Average record carries exactly the configured KPI keys. -/
theorem C8_full_expansion_witness :
    (⟨"Chris", "Average", [("BillingsKPI", some (.num q26_5))]⟩ : KpiRecord).values.map
        Prod.fst =
      [("BillingsKPI", read_table_data loaderExampleGrid loaderExampleTable)].map
        Prod.fst :=
  (C8_full_expansion
    [("BillingsKPI", read_table_data loaderExampleGrid loaderExampleTable)]).2
    _ (by decide)

/- ================================================================== -/
/- C3 : resolver filtering and month assignment                        -/
/- ================================================================== -/

/-- C3 counterexample: the claim says the resolver matches the subject name
case-insensitively (and trimmed) for every subject, but the TEAM resolver
compares the trimmed `Team` field case-SENSITIVELY: a history whose Team is
spelled "ot" is invisible to the subject "OT" (empty filter, resolver
returns none) yet fully visible to the subject "ot" — under the claimed
case-insensitive matching both subjects would resolve identically. -/
theorem C3_counterexample :
    filterTeamRecords "OT" histTeamLower = [] ∧
    get_team_ave_threshold_ranges "OT" 2026 stdMonthCol (some 15)
      histTeamLower = none ∧
    ¬(get_team_ave_threshold_ranges "ot" 2026 stdMonthCol (some 15)
      histTeamLower = none) ∧
    pyLower (pyStrip "OT") = pyLower (pyStrip "ot") := by
  refine ⟨?_, ?_, ?_, ?_⟩ <;> decide

/-- C3 (amended): the therapist resolver filters history records by
case-insensitive, whitespace-trimmed name match with a non-null
EffectiveDate; the TEAM resolver filters by whitespace-trimmed but
case-sensitive team match with a non-null EffectiveDate.  Both assign to a
month the regime of the latest ascending-sorted record whose EffectiveDate
is on or before date(year, month, 15), and a month with no applicable
record is silently excluded from the month entries. -/
theorem C3_filters_and_latest :
    (∀ (tname : String) (hist : List CompRecord) (r : CompRecord),
      r ∈ filterTherapistRecords tname hist ↔
        (r ∈ hist ∧ pyLower (pyStrip r.name) = pyLower (pyStrip tname) ∧
          r.effectiveDate.isSome = true)) ∧
    (∀ (team : String) (thist : List TeamAveRecord) (r : TeamAveRecord),
      r ∈ filterTeamRecords team thist ↔
        (r ∈ thist ∧ pyStrip r.team = pyStrip team ∧
          r.effectiveDate.isSome = true)) ∧
    (∀ (records : List CompRecord) (year m : Nat),
      monthCompetency records year m =
        specLatestApplicable (fun r => r.effectiveDate) (fun r => r.competency)
          ⟨year, m, 15⟩ (sortRecordsBy (fun r => r.effectiveDate) records)) ∧
    (∀ (records : List TeamAveRecord) (year m : Nat),
      monthThresholds records year m =
        specLatestApplicable (fun r => r.effectiveDate) threshOf
          ⟨year, m, 15⟩ (sortRecordsBy (fun r => r.effectiveDate) records)) ∧
    (∀ (records : List CompRecord) (year : Nat) (mc : Nat → Option Nat)
        (m col : Nat), 1 ≤ m → m ≤ 12 → mc m = some col →
        (∀ m2, 1 ≤ m2 → m2 ≤ 12 → mc m2 = some col → m2 = m) →
        monthCompetency records year m = none →
        ∀ tag, ¬((tag, col) ∈ therapistMonthEntries records year mc)) ∧
    (∀ (records : List TeamAveRecord) (year : Nat) (mc : Nat → Option Nat)
        (m col : Nat), 1 ≤ m → m ≤ 12 → mc m = some col →
        (∀ m2, 1 ≤ m2 → m2 ≤ 12 → mc m2 = some col → m2 = m) →
        monthThresholds records year m = none →
        ∀ th, ¬((th, col) ∈ teamMonthEntries records year mc)) := by
  refine ⟨?_, ?_, ?_, ?_, ?_, ?_⟩
  · intro tname hist r
    simp [filterTherapistRecords, List.mem_filter]
  · intro team thist r
    simp [filterTeamRecords, List.mem_filter]
  · intro records year m
    unfold monthCompetency
    exact latestApplicable_spec _ _ _ _
  · intro records year m
    unfold monthThresholds
    exact latestApplicable_spec _ _ _ _
  · intro records year mc m col hm1 hm2 hcol hinj hnone tag hmem
    unfold therapistMonthEntries at hmem
    rw [List.mem_filterMap] at hmem
    obtain ⟨m2, hm2mem, hf⟩ := hmem
    rw [List.mem_range'] at hm2mem
    obtain ⟨i, hi, rfl⟩ := hm2mem
    have hb1 : 1 ≤ 1 + 1 * i := by omega
    have hb2 : 1 + 1 * i ≤ 12 := by omega
    cases hmc : mc (1 + 1 * i) with
    | none => rw [hmc] at hf; simp at hf
    | some col2 =>
      rw [hmc] at hf
      cases hcomp : monthCompetency records year (1 + 1 * i) with
      | none => rw [hcomp] at hf; simp at hf
      | some oc =>
        rw [hcomp] at hf
        cases oc with
        | none => simp at hf
        | some cc =>
          by_cases hcc : cc = ""
          · simp [hcc] at hf
          · simp only [hcc, if_neg, if_false] at hf
            have hcol2 : col2 = col := by
              have := congrArg (fun p => p.map Prod.snd) hf
              simp at this
              exact this
            have hmeq : 1 + 1 * i = m := by
              apply hinj
              · exact hb1
              · exact hb2
              · rw [hmc, hcol2]
            rw [hmeq] at hcomp
            rw [hnone] at hcomp
            exact Option.noConfusion hcomp
  · intro records year mc m col hm1 hm2 hcol hinj hnone th hmem
    unfold teamMonthEntries at hmem
    rw [List.mem_filterMap] at hmem
    obtain ⟨m2, hm2mem, hf⟩ := hmem
    rw [List.mem_range'] at hm2mem
    obtain ⟨i, hi, rfl⟩ := hm2mem
    cases hmc : mc (1 + 1 * i) with
    | none => rw [hmc] at hf; simp at hf
    | some col2 =>
      rw [hmc] at hf
      cases hth : monthThresholds records year (1 + 1 * i) with
      | none => rw [hth] at hf; simp at hf
      | some th2 =>
        rw [hth] at hf
        have hcol2 : col2 = col := by
          have := congrArg (fun p => p.map Prod.snd) hf
          simp at this
          exact this
        have hmeq : 1 + 1 * i = m := by
          apply hinj
          · omega
          · omega
          · rw [hmc, hcol2]
        rw [hmeq] at hth
        rw [hnone] at hth
        exact Option.noConfusion hth

/-- C3 witness: the amended filtering and month assignment at concrete
inputs — a trimmed lower-case therapist match, a trimmed case-sensitive
team match, the latest-record refinement on a sample history, and the
silent exclusion of a month with no applicable record by each of the two
resolvers. -/
theorem C3_filters_and_latest_witness :
    ((⟨"Chris", some ⟨2025, 6, 1⟩, some "CA"⟩ : CompRecord) ∈
      filterTherapistRecords " chris" histChris) ∧
    ((⟨"ot", some ⟨2025, 6, 1⟩, some 3, some 4, some 5, some 6⟩ : TeamAveRecord) ∈
      filterTeamRecords "ot " histTeamLower) ∧
    (monthCompetency histChris 2026 1 =
      specLatestApplicable (fun r => r.effectiveDate) (fun r => r.competency)
        ⟨2026, 1, 15⟩ (sortRecordsBy (fun r => r.effectiveDate) histChris)) ∧
    ¬(("CA", 7) ∈ therapistMonthEntries histChris 2024 stdMonthCol) ∧
    ¬(((⟨some 3, some 4, some 5, some 6⟩ : Thresholds), 7) ∈
      teamMonthEntries histTeamLower 2024 stdMonthCol) :=
  ⟨(C3_filters_and_latest.1 " chris" histChris _).mpr
      ⟨by decide, by decide, by decide⟩,
   (C3_filters_and_latest.2.1 "ot " histTeamLower _).mpr
      ⟨by decide, by decide, by decide⟩,
   C3_filters_and_latest.2.2.1 histChris 2026 1,
   C3_filters_and_latest.2.2.2.2.1 histChris 2024 stdMonthCol 5 7
     (by decide) (by decide) (by decide)
     (by
       intro m2 h1 h2 hc
       simp only [stdMonthCol, h1, h2, and_self, if_true, Option.some.injEq] at hc
       omega)
     (by decide) "CA",
   C3_filters_and_latest.2.2.2.2.2 histTeamLower 2024 stdMonthCol 5 7
     (by decide) (by decide) (by decide)
     (by
       intro m2 h1 h2 hc
       simp only [stdMonthCol, h1, h2, and_self, if_true, Option.some.injEq] at hc
       omega)
     (by decide) ⟨some 3, some 4, some 5, some 6⟩⟩

/- ================================================================== -/
/- C1 : two-range split                                                -/
/- ================================================================== -/

theorem group_two_blocks (X Y : String) (cols : Nat → Nat) (M : Nat)
    (hM1 : 1 ≤ M) (hM2 : M ≤ 11) (hYX : ¬(Y = X)) :
    groupRanges id ((List.range' 1 12).map
      (fun m => ((if m ≤ M then X else Y), cols m))) =
      [(X, cols 1, cols M), (Y, cols (M + 1), cols 12)] := by
  have e1 : 2 + 1 * (M - 1) = M + 1 := by omega
  have e2 : 12 - M + (M - 1) = 11 := by omega
  have happ := List.range'_append 2 (M - 1) (12 - M) 1
  rw [e1, e2] at happ
  have e3 : 12 - M = (11 - M) + 1 := by omega
  rw [e3, List.range'_succ] at happ
  have h12 : List.range' 1 12 = 1 :: List.range' 2 11 := rfl
  rw [h12, List.map_cons, ← happ, List.map_append, List.map_cons]
  rw [if_pos hM1, if_neg (by omega : ¬(M + 1 ≤ M))]
  show groupGo id X (cols 1) (cols 1) _ = _
  rw [groupGo_split id X (cols 1) (cols 1) _ _ Y (cols (M + 1))
    (by
      intro p hp
      rw [List.mem_map] at hp
      obtain ⟨m, hm, rfl⟩ := hp
      rw [List.mem_range'] at hm
      obtain ⟨i, hi, rfl⟩ := hm
      show (if 2 + 1 * i ≤ M then X else Y) = X
      rw [if_pos (by omega)])
    (fun hcc => hYX hcc)
    (by
      intro p hp
      rw [List.mem_map] at hp
      obtain ⟨m, hm, rfl⟩ := hp
      rw [List.mem_range'] at hm
      obtain ⟨i, hi, rfl⟩ := hm
      show (if M + 1 + 1 + 1 * i ≤ M then X else Y) = Y
      rw [if_neg (by omega)])]
  rw [List.map_map, List.map_map]
  have hend1 : ((List.range' 2 (M - 1)).map
      (Prod.snd ∘ fun m => ((if m ≤ M then X else Y), cols m))).getLastD (cols 1) =
      cols M := by
    rw [getLastD_map_range']
    rcases Nat.eq_or_lt_of_le hM1 with h1 | h1
    · rw [if_pos (by omega), ← h1]
    · rw [if_neg (by omega)]
      simp only [Function.comp_apply]
      congr 1
      omega
  have hend2 : ((List.range' (M + 1 + 1) (11 - M)).map
      (Prod.snd ∘ fun m => ((if m ≤ M then X else Y), cols m))).getLastD
        (cols (M + 1)) = cols 12 := by
    rw [getLastD_map_range']
    rcases Nat.eq_or_lt_of_le hM2 with h11 | h11
    · rw [if_pos (by omega)]
      congr 1
      omega
    · rw [if_neg (by omega)]
      simp only [Function.comp_apply]
      congr 1
      omega
  rw [hend1, hend2]

/-- C1: for a therapist whose history resolves to competency X for January
through month M and competency Y for months M+1 through December of the
same (truthy) year, with all twelve months present in the column map, the
resolver returns exactly two ranges: the first covers the columns of
Jan..M tagged X, the second covers the columns of M+1..Dec tagged Y, and
the Average column (when present in the map) replaces the end of the
second range only. -/
theorem C1_two_range_split (tname : String) (year : Nat)
    (mc : Nat → Option Nat) (avg : Option Nat) (hist : List CompRecord)
    (cols : Nat → Nat) (M : Nat) (X Y : String)
    (hyear : ¬(year = 0))
    (hcols : ∀ m, 1 ≤ m → m ≤ 12 → mc m = some (cols m))
    (havg : ∀ a, avg = some a → ¬(a = 0))
    (hM1 : 1 ≤ M) (hM2 : M ≤ 11)
    (hX : ∀ m, 1 ≤ m → m ≤ M →
      monthCompetency (filterTherapistRecords tname hist) year m = some (some X))
    (hY : ∀ m, M + 1 ≤ m → m ≤ 12 →
      monthCompetency (filterTherapistRecords tname hist) year m = some (some Y))
    (hXne : ¬(X = "")) (hYne : ¬(Y = "")) (hYX : ¬(Y = X)) :
    get_competency_ranges_for_therapist tname year mc avg hist =
      some [(X, cols 1, cols M),
        (Y, cols (M + 1), match avg with | some a => a | none => cols 12)] := by
  have hrec : (filterTherapistRecords tname hist).isEmpty = false := by
    cases hE : (filterTherapistRecords tname hist).isEmpty
    · rfl
    · exfalso
      rw [List.isEmpty_iff] at hE
      have h1 := hX 1 le_rfl hM1
      rw [hE] at h1
      simp [monthCompetency, sortRecordsBy, stableSortBy, latestApplicable] at h1
  have hentries : therapistMonthEntries (filterTherapistRecords tname hist) year mc =
      (List.range' 1 12).map (fun m => ((if m ≤ M then X else Y), cols m)) := by
    apply filterMap_eq_map_of
    intro m hm
    rw [List.mem_range'] at hm
    obtain ⟨i, hi, rfl⟩ := hm
    by_cases hmM : 1 + 1 * i ≤ M
    · simp only [hcols _ (by omega : 1 ≤ 1 + 1 * i) (by omega : 1 + 1 * i ≤ 12),
        hX _ (by omega) hmM, if_pos hmM, hXne, if_neg, if_false]
    · simp only [hcols _ (by omega : 1 ≤ 1 + 1 * i) (by omega : 1 + 1 * i ≤ 12),
        hY _ (by omega) (by omega : 1 + 1 * i ≤ 12), if_neg hmM, hYne, if_false]
  have hnonnil : List.range' 1 12 ≠ [] := by
    rw [(rfl : List.range' 1 12 = 1 :: List.range' 2 11)]
    simp
  have hmapne : (((List.range' 1 12).map
      (fun m => ((if m ≤ M then X else Y), cols m))).isEmpty) = false := by
    rw [List.isEmpty_eq_false_iff_exists_mem]
    exact ⟨((if 1 ≤ M then X else Y), cols 1), by
      rw [List.mem_map]
      exact ⟨1, by rw [(rfl : List.range' 1 12 = 1 :: List.range' 2 11)]; simp, rfl⟩⟩
  unfold get_competency_ranges_for_therapist
  simp only [hrec, decide_eq_false hyear, Bool.or_false, Bool.false_eq_true,
    if_false, hentries, hmapne, group_two_blocks X Y cols M hM1 hM2 hYX]
  cases avg with
  | none => simp
  | some a =>
    have ha := havg a rfl
    simp only [List.isEmpty_cons, Bool.not_false, decide_eq_false ha,
      Bool.not_false, Bool.and_self, if_true]
    simp [setLastEnd]

/-- C1 witness: Chris is CA through January 2026 and Senior from February
(effective 20 Jan 2026); the resolver returns exactly the two ranges
[(CA, C, C), (Senior, D, O)] with the Average column O=15 ending the
second range only. -/
theorem C1_two_range_split_witness :
    get_competency_ranges_for_therapist "Chris" 2026 stdMonthCol (some 15)
      histChris = some [("CA", 3, 3), ("Senior", 4, 15)] :=
  C1_two_range_split "Chris" 2026 stdMonthCol (some 15) histChris
    (fun m => m + 2) 1 "CA" "Senior"
    (by decide)
    (by
      intro m h1 h2
      simp [stdMonthCol, h1, h2])
    (by
      intro a ha
      rw [Option.some.injEq] at ha
      omega)
    (by decide) (by decide)
    (by
      intro m h1 h2
      have hm : m = 1 := by omega
      subst hm
      decide)
    (by
      intro m h1 h2
      interval_cases m <;> decide)
    (by decide) (by decide) (by decide)

/- ================================================================== -/
/- C4 : grow case skips all writes                                     -/
/- ================================================================== -/

/-- C4: when the authoritative roster count exceeds the current data-row
count of the team's first table, `sync_team_tables` returns the workbook
completely untouched (no cell writes to any table of the team) together
with a pending change `{action: "add", row_count: delta}`. -/
theorem C4_grow_skips_all_writes (ws : WS) (teamName : String) (cfg : Config)
    (firstName : String) (ft : Table)
    (hths : ¬(get_therapists_for_team cfg teamName = []))
    (hhead : (TEAM_TABLES teamName).head? = some firstName)
    (hlook : List.lookup firstName ws.tables = some ft)
    (hdelta : ft.maxRow - ft.minRow <
      (get_therapists_for_team cfg teamName).length) :
    sync_team_tables ws teamName cfg =
      (ws, ⟨0, 0, 0, true, some ⟨TEAM_SHEET_MAP teamName, teamName, "add",
        (get_therapists_for_team cfg teamName).length -
          (ft.maxRow - ft.minRow)⟩⟩) := by
  have h1 : (get_therapists_for_team cfg teamName).isEmpty = false := by
    cases hE : (get_therapists_for_team cfg teamName).isEmpty
    · rfl
    · exact absurd (List.isEmpty_iff.mp hE) hths
  have h2 : (0 : Int) < ((get_therapists_for_team cfg teamName).length : Int) -
      ((ft.maxRow - ft.minRow : Nat) : Int) := by omega
  have h3 : (((get_therapists_for_team cfg teamName).length : Int) -
      ((ft.maxRow - ft.minRow : Nat) : Int)).toNat =
      (get_therapists_for_team cfg teamName).length - (ft.maxRow - ft.minRow) := by
    omega
  simp only [sync_team_tables, h1, Bool.false_eq_true, if_false, hhead, hlook,
    h2, if_true, h3]

/-- C4 witness: a roster of two against a one-row table — the grow case at
a concrete workbook. -/
theorem C4_grow_skips_all_writes_witness :
    sync_team_tables wsGrow "Physio_North" cfgTwo =
      (wsGrow, ⟨0, 0, 0, true,
        some ⟨"KPI Dashboard North", "Physio_North", "add", 1⟩⟩) :=
  C4_grow_skips_all_writes wsGrow "Physio_North" cfgTwo "Billings_North"
    ⟨2, 10, 5, 11⟩ (by decide) (by decide) (by decide) (by decide)

/- ================================================================== -/
/- Table write machinery                                               -/
/- ================================================================== -/

theorem rowWrites_coords (t : Table) (cd : List (String × List (Option Val)))
    (i : Nat) (th : Therapist) :
    ∀ w ∈ rowWrites t cd i th,
      w.1 = t.minRow + 1 + i ∧ t.minCol ≤ w.2.1 ∧ w.2.1 < t.maxCol := by
  intro w hw
  unfold rowWrites at hw
  rw [List.mem_map] at hw
  obtain ⟨off, hoff, rfl⟩ := hw
  rw [List.mem_range] at hoff
  dsimp only
  exact ⟨rfl, by omega, by omega⟩

theorem therapWrites_coords (t : Table) (cd : List (String × List (Option Val))) :
    ∀ (ths : List Therapist) (j : Nat), ∀ w ∈ therapWrites t cd j ths,
      (∃ i, i < ths.length ∧ w.1 = t.minRow + 1 + (j + i)) ∧
        t.minCol ≤ w.2.1 ∧ w.2.1 < t.maxCol := by
  intro ths
  induction ths with
  | nil => intro j w hw; simp [therapWrites] at hw
  | cons th rest ih =>
    intro j w hw
    unfold therapWrites at hw
    rw [List.mem_append] at hw
    rcases hw with hw | hw
    · obtain ⟨h1, h2, h3⟩ := rowWrites_coords t cd j th w hw
      exact ⟨⟨0, by simp, by omega⟩, h2, h3⟩
    · obtain ⟨⟨i, hi, hrow⟩, h2, h3⟩ := ih (j + 1) w hw
      exact ⟨⟨i + 1, by simp; omega, by omega⟩, h2, h3⟩

theorem clearWrites_coords (t : Table) (n : Nat) :
    ∀ w ∈ clearWrites t n,
      t.minRow + 1 + n ≤ w.1 ∧ w.1 ≤ t.maxRow ∧
      t.minCol ≤ w.2.1 ∧ w.2.1 < t.maxCol ∧ w.2.2 = none := by
  intro w hw
  unfold clearWrites at hw
  rw [List.mem_flatMap] at hw
  obtain ⟨r, hr, hw⟩ := hw
  rw [List.mem_range'] at hr
  obtain ⟨i, hi, rfl⟩ := hr
  rw [List.mem_map] at hw
  obtain ⟨j, hj, rfl⟩ := hw
  rw [List.mem_range] at hj
  dsimp only
  exact ⟨by omega, by omega, by omega, by omega, rfl⟩

theorem clearWrites_mem (t : Table) (n r c : Nat)
    (h1 : t.minRow + 1 + n ≤ r) (h2 : r ≤ t.maxRow)
    (h3 : t.minCol ≤ c) (h4 : c < t.maxCol) :
    ((r, c, (none : Option Val)) : CellWrite) ∈ clearWrites t n := by
  unfold clearWrites
  rw [List.mem_flatMap]
  refine ⟨r, ?_, ?_⟩
  · rw [List.mem_range']
    exact ⟨r - (t.minRow + 1 + n), by omega, by omega⟩
  · rw [List.mem_map]
    refine ⟨c - t.minCol, by rw [List.mem_range]; omega, ?_⟩
    have hc : t.minCol + (c - t.minCol) = c := by omega
    rw [hc]

theorem therapWrites_cell (t : Table) (cd : List (String × List (Option Val))) :
    ∀ (ths : List Therapist) (g : Grid) (j : Nat) (pre : List Therapist)
      (th : Therapist) (post : List Therapist), ths = pre ++ th :: post →
      ∀ off, off < t.maxCol - t.minCol →
      applyWrites g (therapWrites t cd j ths)
          (t.minRow + 1 + (j + pre.length)) (t.minCol + off) =
        (if off = 0 then some (.str th.name)
         else
           match dictGetLast cd th.name with
           | some dataRow =>
             if off < dataRow.length then dataRow.getD off none else none
           | none => none) := by
  intro ths
  induction ths with
  | nil =>
    intro g j pre th post heq
    cases pre <;> simp at heq
  | cons th0 rest ih =>
    intro g j pre th post heq off hoff
    cases pre with
    | nil =>
      rw [List.nil_append] at heq
      injection heq with h1 h2
      subst h1
      subst h2
      simp only [List.length_nil, Nat.add_zero]
      unfold therapWrites
      rw [applyWrites_append]
      rw [applyWrites_notin _ _ _ _ (by
        intro w hw hcon
        obtain ⟨⟨i, hi, hrow⟩, _, _⟩ := therapWrites_coords t cd rest (j + 1) w hw
        omega)]
      unfold rowWrites
      exact applyWrites_rowlike_target g (t.minRow + 1 + j) t.minCol
        (t.maxCol - t.minCol) _ off hoff
    | cons p pre2 =>
      rw [List.cons_append] at heq
      injection heq with h1 h2
      subst h1
      unfold therapWrites
      rw [applyWrites_append]
      have hidx : t.minRow + 1 + (j + (th0 :: pre2).length) =
          t.minRow + 1 + ((j + 1) + pre2.length) := by
        simp only [List.length_cons]
        omega
      rw [hidx]
      exact ih (applyWrites g (rowWrites t cd j th0)) (j + 1) pre2 th post h2 off hoff

theorem processTable_cell_write (ths : List Therapist) (rowDelta : Int)
    (g : Grid) (t : Table) (pre : List Therapist) (th : Therapist)
    (post : List Therapist) (heq : ths = pre ++ th :: post)
    (off : Nat) (hoff : off < t.maxCol - t.minCol) :
    (processTable ths rowDelta g t).1
        (t.minRow + 1 + pre.length) (t.minCol + off) =
      (if off = 0 then some (.str th.name)
       else
         match dictGetLast ((get_table_rows g t).map (fun r => (r.name, r.data)))
             th.name with
         | some dataRow =>
           if off < dataRow.length then dataRow.getD off none else none
         | none => none) := by
  have hpre : pre.length < ths.length := by
    rw [heq, List.length_append, List.length_cons]
    omega
  simp only [processTable]
  rw [applyWrites_append]
  have hmain : applyWrites g
      (therapWrites t ((get_table_rows g t).map (fun r => (r.name, r.data))) 0 ths)
      (t.minRow + 1 + pre.length) (t.minCol + off) =
      (if off = 0 then some (.str th.name)
       else
         match dictGetLast ((get_table_rows g t).map (fun r => (r.name, r.data)))
             th.name with
         | some dataRow =>
           if off < dataRow.length then dataRow.getD off none else none
         | none => none) := by
    have h0 : t.minRow + 1 + pre.length = t.minRow + 1 + (0 + pre.length) := by omega
    rw [h0]
    exact therapWrites_cell t _ ths g 0 pre th post heq off hoff
  by_cases hd : rowDelta < 0
  · simp only [hd, if_true]
    rw [applyWrites_notin _ _ _ _ (by
      intro w hw hcon
      obtain ⟨hw1, _, _, _, _⟩ := clearWrites_coords t ths.length w hw
      omega)]
    exact hmain
  · simp only [hd, if_false]
    show applyWrites _ [] _ _ = _
    exact hmain

theorem processTable_cell_clear (ths : List Therapist) (rowDelta : Int)
    (g : Grid) (t : Table) (hd : rowDelta < 0) (r c : Nat)
    (h1 : t.minRow + 1 + ths.length ≤ r) (h2 : r ≤ t.maxRow)
    (h3 : t.minCol ≤ c) (h4 : c < t.maxCol) :
    (processTable ths rowDelta g t).1 r c = none := by
  simp only [processTable, hd, if_true]
  rw [applyWrites_append]
  apply applyWrites_all_none
  · intro w hw
    exact (clearWrites_coords t ths.length w hw).2.2.2.2
  · exact ⟨(r, c, none), clearWrites_mem t ths.length r c h1 h2 h3 h4, rfl, rfl⟩

theorem processTable_locality (ths : List Therapist) (rowDelta : Int)
    (g : Grid) (t : Table) (hn : ths.length ≤ t.maxRow - t.minRow) (r c : Nat)
    (hout : ¬ inRect t r c) :
    (processTable ths rowDelta g t).1 r c = g r c := by
  simp only [processTable]
  by_cases hd : rowDelta < 0
  · simp only [hd, if_true]
    apply applyWrites_notin
    intro w hw hcon
    rw [List.mem_append] at hw
    rcases hw with hw | hw
    · obtain ⟨⟨i, hi, hrow⟩, hc1, hc2⟩ := therapWrites_coords t _ ths 0 w hw
      refine hout ?_
      unfold inRect
      omega
    · obtain ⟨hr1, hr2, hc1, hc2, _⟩ := clearWrites_coords t ths.length w hw
      refine hout ?_
      unfold inRect
      omega
  · simp only [hd, if_false, List.append_nil]
    apply applyWrites_notin
    intro w hw hcon
    obtain ⟨⟨i, hi, hrow⟩, hc1, hc2⟩ := therapWrites_coords t _ ths 0 w hw
    refine hout ?_
    unfold inRect
    omega

theorem dictGetLast_go (k : String) (l : List (String × β)) (acc : Option β) :
    l.foldl (fun acc p => if p.1 = k then some p.2 else acc) acc =
      (match dictGetLast l k with
       | some v => some v
       | none => acc) := by
  induction l generalizing acc with
  | nil => rfl
  | cons p rest ih =>
    have hx : dictGetLast (p :: rest) k =
        (match dictGetLast rest k with
         | some v => some v
         | none => if p.1 = k then some p.2 else none) := by
      show List.foldl _ (if p.1 = k then some p.2 else none) rest = _
      rw [ih]
    show List.foldl _ (if p.1 = k then some p.2 else acc) rest = _
    rw [ih, hx]
    cases dictGetLast rest k with
    | some v => rfl
    | none =>
      by_cases hp : p.1 = k
      · rw [if_pos hp, if_pos hp]
      · rw [if_neg hp, if_neg hp]

theorem dictGetLast_cons (k : String) (p : String × β) (l : List (String × β)) :
    dictGetLast (p :: l) k =
      (match dictGetLast l k with
       | some v => some v
       | none => if p.1 = k then some p.2 else none) := by
  show List.foldl _ (if p.1 = k then some p.2 else none) l = _
  rw [dictGetLast_go]

theorem dictGetLast_not_mem (k : String) (l : List (String × β))
    (h : ∀ p ∈ l, ¬(p.1 = k)) : dictGetLast l k = none := by
  induction l with
  | nil => rfl
  | cons p rest ih =>
    rw [dictGetLast_cons, ih (fun p2 h2 => h p2 (by simp [h2]))]
    rw [if_neg (h p (by simp))]

theorem readRowData_length (g : Grid) (t : Table) (r : Nat) :
    (readRowData g t r).length = t.maxCol - t.minCol + 1 := by
  simp [readRowData]

theorem readRowData_getD (g : Grid) (t : Table) (r off : Nat)
    (h : off < t.maxCol - t.minCol + 1) :
    (readRowData g t r).getD off none = g r (t.minCol + off) := by
  unfold readRowData
  rw [getD_map_range _ _ _ _ h]

theorem therapWrites_mem_decomp (t : Table)
    (cd : List (String × List (Option Val))) :
    ∀ (ths : List Therapist) (j : Nat) (w : CellWrite),
      w ∈ therapWrites t cd j ths →
      ∃ (pre : List Therapist) (th : Therapist) (post : List Therapist),
        ths = pre ++ th :: post ∧ w ∈ rowWrites t cd (j + pre.length) th := by
  intro ths
  induction ths with
  | nil => intro j w hw; simp [therapWrites] at hw
  | cons th0 rest ih =>
    intro j w hw
    unfold therapWrites at hw
    rw [List.mem_append] at hw
    rcases hw with hw | hw
    · refine ⟨[], th0, rest, rfl, ?_⟩
      simpa using hw
    · obtain ⟨pre, th, post, heq, hmem⟩ := ih (j + 1) w hw
      refine ⟨th0 :: pre, th, post, by rw [heq, List.cons_append], ?_⟩
      have : j + (th0 :: pre).length = (j + 1) + pre.length := by
        simp only [List.length_cons]
        omega
      rw [this]
      exact hmem

theorem rowsFor_rows (g : Grid) (t : Table)
    (hcol : t.minCol < t.maxCol) :
    ∀ (ths : List Therapist) (r0 : Nat),
      (∀ (pre : List Therapist) (th : Therapist) (post : List Therapist),
        ths = pre ++ th :: post → g (r0 + pre.length) t.minCol = some (.str th.name)) →
      (∀ th ∈ ths, ¬(th.name = "")) →
      (∀ th ∈ ths, pyStrip th.name = th.name) →
      (List.range' r0 ths.length).filterMap (fun r =>
        match g r t.minCol with
        | some v =>
          if valTruthy v then some (⟨r, pyStrip (valToStr v), readRowData g t r⟩ : TRow)
          else none
        | none => none) = rowsFor g t r0 ths := by
  intro ths
  induction ths with
  | nil => intro r0 _ _ _; rfl
  | cons th rest ih =>
    intro r0 hS hne htrim
    rw [List.length_cons, List.range'_succ, List.filterMap_cons]
    have hname := hS [] th rest rfl
    rw [List.length_nil, Nat.add_zero] at hname
    rw [hname]
    have hne0 : ¬(th.name = "") := hne th (by simp)
    have htr : valTruthy (.str th.name) = true := by
      simp [valTruthy, hne0]
    have hstr : pyStrip th.name = th.name := htrim th (by simp)
    simp only [valToStr, htr, if_true, hstr, rowsFor]
    congr 1
    apply ih (r0 + 1)
    · intro pre th2 post heq
      have := hS (th :: pre) th2 post (by rw [heq, List.cons_append])
      rw [List.length_cons] at this
      have harith : r0 + (pre.length + 1) = r0 + 1 + pre.length := by omega
      rw [harith] at this
      exact this
    · intro th2 h2; exact hne th2 (by simp [h2])
    · intro th2 h2; exact htrim th2 (by simp [h2])

theorem rowsFor_names (g : Grid) (t : Table) :
    ∀ (ths : List Therapist) (r0 : Nat),
      (rowsFor g t r0 ths).map (fun row => row.name) =
        ths.map (fun th => th.name) := by
  intro ths
  induction ths with
  | nil => intro r0; rfl
  | cons th rest ih =>
    intro r0
    simp only [rowsFor, List.map_cons, ih (r0 + 1)]

theorem get_table_rows_synced (ths : List Therapist) (rowDelta : Int)
    (g : Grid) (t : Table)
    (hsync : syncedTable ths rowDelta g t)
    (hn : ths.length ≤ t.maxRow - t.minRow)
    (hcol : t.minCol < t.maxCol)
    (hdn : rowDelta < 0 ∨ t.maxRow - t.minRow ≤ ths.length)
    (hne : ∀ th ∈ ths, ¬(th.name = ""))
    (htrim : ∀ th ∈ ths, pyStrip th.name = th.name) :
    get_table_rows g t = rowsFor g t (t.minRow + 1) ths := by
  unfold get_table_rows
  have hsplit : List.range' (t.minRow + 1) (t.maxRow - t.minRow) =
      List.range' (t.minRow + 1) ths.length ++
      List.range' (t.minRow + 1 + ths.length)
        (t.maxRow - t.minRow - ths.length) := by
    have happ := List.range'_append (t.minRow + 1) ths.length
      (t.maxRow - t.minRow - ths.length) 1
    have e1 : t.minRow + 1 + 1 * ths.length = t.minRow + 1 + ths.length := by omega
    have e2 : t.maxRow - t.minRow - ths.length + ths.length =
        t.maxRow - t.minRow := by omega
    rw [e1, e2] at happ
    exact happ.symm
  rw [hsplit, List.filterMap_append]
  have h2 : (List.range' (t.minRow + 1 + ths.length)
      (t.maxRow - t.minRow - ths.length)).filterMap (fun r =>
        match g r t.minCol with
        | some v =>
          if valTruthy v then
            some (⟨r, pyStrip (valToStr v), readRowData g t r⟩ : TRow)
          else none
        | none => none) = [] := by
    rcases hdn with hd | hd
    · rw [List.filterMap_eq_nil_iff]
      intro r hr
      rw [List.mem_range'] at hr
      obtain ⟨i, hi, rfl⟩ := hr
      rw [hsync.2 hd _ t.minCol (by omega) (by omega) (by omega) hcol]
    · have hz : t.maxRow - t.minRow - ths.length = 0 := by omega
      rw [hz]
      rfl
  rw [h2, List.append_nil]
  exact rowsFor_rows g t hcol ths (t.minRow + 1)
    (fun pre th post heq => hsync.1 pre th post heq) hne htrim

theorem dictGetLast_rowsFor (g : Grid) (t : Table) :
    ∀ (pre : List Therapist) (ths : List Therapist) (r0 : Nat)
      (th : Therapist) (post : List Therapist), ths = pre ++ th :: post →
      ((ths.map (fun th => th.name)).Nodup) →
      dictGetLast ((rowsFor g t r0 ths).map (fun row => (row.name, row.data)))
        th.name = some (readRowData g t (r0 + pre.length)) := by
  intro pre
  induction pre with
  | nil =>
    intro ths r0 th post heq hnodup
    subst heq
    rw [List.nil_append] at hnodup ⊢
    simp only [rowsFor, List.map_cons]
    rw [dictGetLast_cons]
    have hnm : dictGetLast ((rowsFor g t (r0 + 1) post).map
        (fun row => (row.name, row.data))) th.name = none := by
      apply dictGetLast_not_mem
      intro p hp
      rw [List.mem_map] at hp
      obtain ⟨row, hrow, rfl⟩ := hp
      have hmem : row.name ∈ (rowsFor g t (r0 + 1) post).map (fun row => row.name) :=
        List.mem_map_of_mem _ hrow
      rw [rowsFor_names] at hmem
      rw [List.map_cons, List.nodup_cons] at hnodup
      intro hcon
      exact hnodup.1 (hcon ▸ hmem)
    rw [hnm]
    rw [List.length_nil, Nat.add_zero]
    show (if th.name = th.name then some (readRowData g t r0) else none) = _
    rw [if_pos rfl]
  | cons p0 pre2 ih =>
    intro ths r0 th post heq hnodup
    subst heq
    rw [List.cons_append] at hnodup ⊢
    simp only [rowsFor, List.map_cons]
    rw [dictGetLast_cons]
    have hrec := ih (pre2 ++ th :: post) (r0 + 1) th post rfl (by
      rw [List.map_cons, List.nodup_cons] at hnodup
      exact hnodup.2)
    rw [hrec]
    have hidx : r0 + 1 + pre2.length = r0 + (p0 :: pre2).length := by
      simp only [List.length_cons]
      omega
    rw [hidx]

theorem processTable_synced (ths : List Therapist) (rowDelta : Int)
    (g : Grid) (t : Table)
    (hn : ths.length ≤ t.maxRow - t.minRow) (hcol : t.minCol < t.maxCol) :
    syncedTable ths rowDelta (processTable ths rowDelta g t).1 t := by
  constructor
  · intro pre th post heq
    have h0 : (0 : Nat) < t.maxCol - t.minCol := by omega
    have hw := processTable_cell_write ths rowDelta g t pre th post heq 0 h0
    simp only [Nat.add_zero, if_pos rfl] at hw
    exact hw
  · intro hd r c h1 h2 h3 h4
    exact processTable_cell_clear ths rowDelta g t hd r c h1 h2 h3 h4

theorem synced_of_agree (ths : List Therapist) (rowDelta : Int)
    (g g2 : Grid) (t : Table)
    (hs : syncedTable ths rowDelta g t)
    (hn : ths.length ≤ t.maxRow - t.minRow) (hcol : t.minCol < t.maxCol)
    (hagree : ∀ r c, inRect t r c → g2 r c = g r c) :
    syncedTable ths rowDelta g2 t := by
  constructor
  · intro pre th post heq
    have hlen : pre.length < ths.length := by
      rw [heq, List.length_append, List.length_cons]
      omega
    rw [hagree _ _ (by unfold inRect; omega)]
    exact hs.1 pre th post heq
  · intro hd r c h1 h2 h3 h4
    rw [hagree _ _ (by unfold inRect; omega)]
    exact hs.2 hd r c h1 h2 h3 h4

theorem processTable_id (ths : List Therapist) (rowDelta : Int)
    (g : Grid) (t : Table)
    (hs : syncedTable ths rowDelta g t)
    (hn : ths.length ≤ t.maxRow - t.minRow)
    (hcol : t.minCol < t.maxCol)
    (hdn : rowDelta < 0 ∨ t.maxRow - t.minRow ≤ ths.length)
    (hnodup : (ths.map (fun th => th.name)).Nodup)
    (hne : ∀ th ∈ ths, ¬(th.name = ""))
    (htrim : ∀ th ∈ ths, pyStrip th.name = th.name) :
    (processTable ths rowDelta g t).1 = g := by
  have hrows : get_table_rows g t = rowsFor g t (t.minRow + 1) ths :=
    get_table_rows_synced ths rowDelta g t hs hn hcol hdn hne htrim
  have hther : ∀ w ∈ therapWrites t
      ((get_table_rows g t).map (fun r => (r.name, r.data))) 0 ths,
      g w.1 w.2.1 = w.2.2 := by
    intro w hw
    obtain ⟨pre, th, post, heq, hmem⟩ := therapWrites_mem_decomp t _ ths 0 w hw
    unfold rowWrites at hmem
    rw [List.mem_map] at hmem
    obtain ⟨off, hoff, rfl⟩ := hmem
    rw [List.mem_range] at hoff
    dsimp only
    by_cases h0 : off = 0
    · subst h0
      rw [if_pos rfl]
      have := hs.1 pre th post heq
      simp only [Nat.zero_add, Nat.add_zero]
      exact this
    · rw [if_neg h0, hrows,
        dictGetLast_rowsFor g t pre ths (t.minRow + 1) th post heq hnodup]
      have hlen : off < (readRowData g t (t.minRow + 1 + pre.length)).length := by
        rw [readRowData_length]
        omega
      show g _ _ = (if off < (readRowData g t (t.minRow + 1 + pre.length)).length
        then (readRowData g t (t.minRow + 1 + pre.length)).getD off none else none)
      rw [if_pos hlen]
      have hidx : t.minRow + 1 + pre.length = t.minRow + 1 + (0 + pre.length) := by
        omega
      rw [readRowData_getD g t _ off (by omega), ← hidx]
  by_cases hd : rowDelta < 0
  · simp only [processTable, hd, if_true]
    apply applyWrites_id
    intro w hw
    rw [List.mem_append] at hw
    rcases hw with hw | hw
    · exact hther w hw
    · obtain ⟨h1, h2, h3, h4, h5⟩ := clearWrites_coords t ths.length w hw
      rw [h5]
      exact hs.2 hd w.1 w.2.1 h1 h2 h3 h4
  · simp only [processTable, hd, if_false, List.append_nil]
    apply applyWrites_id
    intro w hw
    exact hther w hw

theorem rectDisjoint_not_inRect (a b : Table) (h : rectDisjoint a b)
    (r c : Nat) (hb : inRect b r c) : ¬ inRect a r c := by
  unfold rectDisjoint at h
  unfold inRect at hb ⊢
  omega

theorem syncFold_rc_neg (ws : WS) (ths : List Therapist) (rowDelta : Int)
    (hd : rowDelta < 0) :
    ∀ (names : List String) (acc : Grid × Nat × Nat × Nat × Nat),
      ((∃ nm ∈ names, (List.lookup nm ws.tables).isSome = true) ∨
        acc.2.2.2.2 = (-rowDelta).toNat) →
      (syncFold ws ths rowDelta names acc).2.2.2.2 = (-rowDelta).toNat := by
  intro names
  induction names with
  | nil =>
    intro acc h
    rcases h with ⟨nm, hnm, _⟩ | h
    · simp at hnm
    · exact h
  | cons nm rest ih =>
    intro acc h
    cases hl : List.lookup nm ws.tables with
    | none =>
      simp only [syncFold, hl]
      apply ih
      rcases h with ⟨nm2, hnm2, hsome⟩ | h
      · rcases List.mem_cons.mp hnm2 with rfl | hnm2
        · rw [hl] at hsome
          simp at hsome
        · exact Or.inl ⟨nm2, hnm2, hsome⟩
      · exact Or.inr h
    | some t =>
      simp only [syncFold, hl]
      apply ih
      right
      dsimp only
      rw [if_pos hd]

theorem syncFold_rc_of_nonneg (ws : WS) (ths : List Therapist) (rowDelta : Int)
    (hd : ¬(rowDelta < 0)) :
    ∀ (names : List String) (acc : Grid × Nat × Nat × Nat × Nat),
      (syncFold ws ths rowDelta names acc).2.2.2.2 = acc.2.2.2.2 := by
  intro names
  induction names with
  | nil => intro acc; rfl
  | cons nm rest ih =>
    intro acc
    cases hl : List.lookup nm ws.tables with
    | none =>
      simp only [syncFold, hl]
      exact ih acc
    | some t =>
      simp only [syncFold, hl]
      rw [ih]
      dsimp only
      rw [if_neg hd]

theorem syncFold_clear (ws : WS) (ths : List Therapist) (rowDelta : Int)
    (hd : rowDelta < 0) (t : Table) (r c : Nat)
    (hc1 : t.minRow + 1 + ths.length ≤ r) (hc2 : r ≤ t.maxRow)
    (hc3 : t.minCol ≤ c) (hc4 : c < t.maxCol) :
    ∀ (names : List String) (acc : Grid × Nat × Nat × Nat × Nat),
      (∀ nm ∈ names, ∀ t2, List.lookup nm ws.tables = some t2 →
        ths.length ≤ t2.maxRow - t2.minRow ∧ (t2 = t ∨ ¬ inRect t2 r c)) →
      (acc.1 r c = none ∨ ∃ nm ∈ names, List.lookup nm ws.tables = some t) →
      (syncFold ws ths rowDelta names acc).1 r c = none := by
  intro names
  induction names with
  | nil =>
    intro acc H hstart
    rcases hstart with h | ⟨nm, hnm, _⟩
    · exact h
    · simp at hnm
  | cons nm rest ih =>
    intro acc H hstart
    cases hl : List.lookup nm ws.tables with
    | none =>
      simp only [syncFold, hl]
      apply ih _ (fun nm2 h2 t3 ht3 => H nm2 (by simp [h2]) t3 ht3)
      rcases hstart with h | ⟨nm2, hnm2, hsome⟩
      · exact Or.inl h
      · rcases List.mem_cons.mp hnm2 with rfl | hnm2
        · rw [hl] at hsome
          exact absurd hsome (by simp)
        · exact Or.inr ⟨nm2, hnm2, hsome⟩
    | some t2 =>
      simp only [syncFold, hl]
      obtain ⟨hn2, hsplit⟩ := H nm (by simp) t2 hl
      apply ih _ (fun nm2 h2 t3 ht3 => H nm2 (by simp [h2]) t3 ht3)
      by_cases ht2 : t2 = t
      · subst ht2
        left
        dsimp only
        exact processTable_cell_clear ths rowDelta acc.1 t2 hd r c hc1 hc2 hc3 hc4
      · have hout : ¬ inRect t2 r c := by
          rcases hsplit with h | h
          · exact absurd h ht2
          · exact h
        rcases hstart with h | ⟨nm2, hnm2, hsome⟩
        · left
          dsimp only
          rw [processTable_locality ths rowDelta acc.1 t2 hn2 r c hout]
          exact h
        · rcases List.mem_cons.mp hnm2 with rfl | hnm2
          · rw [hl] at hsome
            injection hsome with hsome
            exact absurd hsome ht2
          · exact Or.inr ⟨nm2, hnm2, hsome⟩

theorem syncFold_synced (ws : WS) (ths : List Therapist) (rowDelta : Int)
    (t : Table)
    (hn : ths.length ≤ t.maxRow - t.minRow) (hcol : t.minCol < t.maxCol) :
    ∀ (names : List String) (acc : Grid × Nat × Nat × Nat × Nat),
      (∀ nm ∈ names, ∀ t2, List.lookup nm ws.tables = some t2 →
        ths.length ≤ t2.maxRow - t2.minRow ∧ (t2 = t ∨ rectDisjoint t2 t)) →
      ((∃ nm ∈ names, List.lookup nm ws.tables = some t) ∨
        syncedTable ths rowDelta acc.1 t) →
      syncedTable ths rowDelta (syncFold ws ths rowDelta names acc).1 t := by
  intro names
  induction names with
  | nil =>
    intro acc H hstart
    rcases hstart with ⟨nm, hnm, _⟩ | h
    · simp at hnm
    · exact h
  | cons nm rest ih =>
    intro acc H hstart
    cases hl : List.lookup nm ws.tables with
    | none =>
      simp only [syncFold, hl]
      apply ih _ (fun nm2 h2 t3 ht3 => H nm2 (by simp [h2]) t3 ht3)
      rcases hstart with ⟨nm2, hnm2, hsome⟩ | h
      · rcases List.mem_cons.mp hnm2 with rfl | hnm2
        · rw [hl] at hsome
          exact absurd hsome (by simp)
        · exact Or.inl ⟨nm2, hnm2, hsome⟩
      · exact Or.inr h
    | some t2 =>
      simp only [syncFold, hl]
      obtain ⟨hn2, hsplit⟩ := H nm (by simp) t2 hl
      apply ih _ (fun nm2 h2 t3 ht3 => H nm2 (by simp [h2]) t3 ht3)
      by_cases ht2 : t2 = t
      · subst ht2
        right
        dsimp only
        exact processTable_synced ths rowDelta acc.1 t2 hn hcol
      · have hdisj : rectDisjoint t2 t := by
          rcases hsplit with h | h
          · exact absurd h ht2
          · exact h
        rcases hstart with ⟨nm2, hnm2, hsome⟩ | h
        · rcases List.mem_cons.mp hnm2 with rfl | hnm2
          · rw [hl] at hsome
            injection hsome with hsome
            exact absurd hsome ht2
          · exact Or.inl ⟨nm2, hnm2, hsome⟩
        · right
          dsimp only
          exact synced_of_agree ths rowDelta acc.1 _ t h hn hcol
            (fun r c hrc =>
              processTable_locality ths rowDelta acc.1 t2 hn2 r c
                (rectDisjoint_not_inRect t2 t hdisj r c hrc))

theorem syncFold_id (ws : WS) (ths : List Therapist) (rowDelta : Int)
    (G : Grid)
    (hnodup : (ths.map (fun th => th.name)).Nodup)
    (hne : ∀ th ∈ ths, ¬(th.name = ""))
    (htrim : ∀ th ∈ ths, pyStrip th.name = th.name) :
    ∀ (names : List String) (acc : Grid × Nat × Nat × Nat × Nat),
      acc.1 = G →
      (∀ nm ∈ names, ∀ t2, List.lookup nm ws.tables = some t2 →
        ths.length ≤ t2.maxRow - t2.minRow ∧ t2.minCol < t2.maxCol ∧
        (rowDelta < 0 ∨ t2.maxRow - t2.minRow ≤ ths.length) ∧
        syncedTable ths rowDelta G t2) →
      (syncFold ws ths rowDelta names acc).1 = G := by
  intro names
  induction names with
  | nil => intro acc hacc H; exact hacc
  | cons nm rest ih =>
    intro acc hacc H
    cases hl : List.lookup nm ws.tables with
    | none =>
      simp only [syncFold, hl]
      exact ih acc hacc (fun nm2 h2 t3 ht3 => H nm2 (by simp [h2]) t3 ht3)
    | some t2 =>
      simp only [syncFold, hl]
      obtain ⟨h1, h2, h3, h4⟩ := H nm (by simp) t2 hl
      apply ih _ ?_ (fun nm2 hm t3 ht3 => H nm2 (by simp [hm]) t3 ht3)
      dsimp only
      rw [hacc]
      exact processTable_id ths rowDelta G t2 h4 h1 h2 h3 hnodup hne htrim

theorem sync_team_tables_eq_of_nongrow (ws : WS) (teamName : String)
    (cfg : Config) (nm0 : String) (restNames : List String) (ft : Table)
    (hne : (get_therapists_for_team cfg teamName).isEmpty = false)
    (hlist : TEAM_TABLES teamName = nm0 :: restNames)
    (hlook : List.lookup nm0 ws.tables = some ft)
    (hnotpos : ¬(0 < ((get_therapists_for_team cfg teamName).length : Int) -
      ((ft.maxRow - ft.minRow : Nat) : Int))) :
    sync_team_tables ws teamName cfg =
      ({ tables := ws.tables,
         grid := (syncFold ws (get_therapists_for_team cfg teamName)
           (((get_therapists_for_team cfg teamName).length : Int) -
             ((ft.maxRow - ft.minRow : Nat) : Int))
           (TEAM_TABLES teamName) (ws.grid, 0, 0, 0, 0)).1 },
       ⟨(syncFold ws (get_therapists_for_team cfg teamName)
           (((get_therapists_for_team cfg teamName).length : Int) -
             ((ft.maxRow - ft.minRow : Nat) : Int))
           (TEAM_TABLES teamName) (ws.grid, 0, 0, 0, 0)).2.1,
        (syncFold ws (get_therapists_for_team cfg teamName)
           (((get_therapists_for_team cfg teamName).length : Int) -
             ((ft.maxRow - ft.minRow : Nat) : Int))
           (TEAM_TABLES teamName) (ws.grid, 0, 0, 0, 0)).2.2.1,
        (syncFold ws (get_therapists_for_team cfg teamName)
           (((get_therapists_for_team cfg teamName).length : Int) -
             ((ft.maxRow - ft.minRow : Nat) : Int))
           (TEAM_TABLES teamName) (ws.grid, 0, 0, 0, 0)).2.2.2.1,
        false,
        if 0 < (syncFold ws (get_therapists_for_team cfg teamName)
           (((get_therapists_for_team cfg teamName).length : Int) -
             ((ft.maxRow - ft.minRow : Nat) : Int))
           (TEAM_TABLES teamName) (ws.grid, 0, 0, 0, 0)).2.2.2.2 then
          some ⟨TEAM_SHEET_MAP teamName, teamName, "delete",
            (syncFold ws (get_therapists_for_team cfg teamName)
              (((get_therapists_for_team cfg teamName).length : Int) -
                ((ft.maxRow - ft.minRow : Nat) : Int))
              (TEAM_TABLES teamName) (ws.grid, 0, 0, 0, 0)).2.2.2.2⟩
        else none⟩) := by
  conv =>
    lhs
    rw [sync_team_tables]
  simp only [hne, Bool.false_eq_true, if_false, hlist, List.head?_cons, hlook,
    hnotpos]

/- ================================================================== -/
/- C5 : shrink case                                                    -/
/- ================================================================== -/

/-- C5 counterexample: a team whose roster count (0) is smaller than the
current data-row count (3) for which the sync neither clears any cell nor
returns a pending delete — `sync_team_tables` returns before touching
anything when the roster is empty, contradicting the claim's universal
delta < 0 behaviour. -/
theorem C5_counterexample :
    (⟨[]⟩ : Config).therapists.length <
      (shrinkT "Billings_North").maxRow - (shrinkT "Billings_North").minRow ∧
    (sync_team_tables wsShrink "Physio_North" (⟨[]⟩ : Config)).1 = wsShrink ∧
    (sync_team_tables wsShrink "Physio_North" (⟨[]⟩ : Config)).2.pending =
      none :=
  ⟨by decide, rfl, rfl⟩

/-- C5 (amended): for every team with a NONEMPTY roster smaller than the
current data-row count (delta < 0), with the team's tables present,
parallel (same row count), and pairwise disjoint, the sync clears to None
every cell except the rightmost column in each excess trailing row of
every table of the group, leaves every declared table reference unchanged,
and returns pending_change{action:"delete", row_count:|delta|}. -/
theorem C5_shrink_clears (ws : WS) (teamName : String) (cfg : Config)
    (T : String → Table) (nm0 : String) (restNames : List String) (cur : Nat)
    (hlist : TEAM_TABLES teamName = nm0 :: restNames)
    (hT : ∀ nm ∈ TEAM_TABLES teamName, List.lookup nm ws.tables = some (T nm))
    (hTrows : ∀ nm ∈ TEAM_TABLES teamName, (T nm).maxRow - (T nm).minRow = cur)
    (hTcol : ∀ nm ∈ TEAM_TABLES teamName, (T nm).minCol < (T nm).maxCol)
    (hdisj : ∀ nm ∈ TEAM_TABLES teamName, ∀ nm2 ∈ TEAM_TABLES teamName,
      ¬(nm = nm2) → rectDisjoint (T nm) (T nm2))
    (hne : ¬(get_therapists_for_team cfg teamName = []))
    (hshrink : (get_therapists_for_team cfg teamName).length < cur) :
    (sync_team_tables ws teamName cfg).1.tables = ws.tables ∧
    (sync_team_tables ws teamName cfg).2.pending =
      some ⟨TEAM_SHEET_MAP teamName, teamName, "delete",
        cur - (get_therapists_for_team cfg teamName).length⟩ ∧
    (∀ nm ∈ TEAM_TABLES teamName, ∀ r c,
      (T nm).minRow + 1 + (get_therapists_for_team cfg teamName).length ≤ r →
      r ≤ (T nm).maxRow → (T nm).minCol ≤ c → c < (T nm).maxCol →
      (sync_team_tables ws teamName cfg).1.grid r c = none) := by
  have hmem0 : nm0 ∈ TEAM_TABLES teamName := by rw [hlist]; simp
  have hthsE : (get_therapists_for_team cfg teamName).isEmpty = false := by
    cases hE : (get_therapists_for_team cfg teamName).isEmpty
    · rfl
    · exact absurd (List.isEmpty_iff.mp hE) hne
  have hcur0 : (T nm0).maxRow - (T nm0).minRow = cur := hTrows nm0 hmem0
  have hnotpos : ¬(0 < ((get_therapists_for_team cfg teamName).length : Int) -
      (((T nm0).maxRow - (T nm0).minRow : Nat) : Int)) := by
    rw [hcur0]
    omega
  have hd : ((get_therapists_for_team cfg teamName).length : Int) -
      (((T nm0).maxRow - (T nm0).minRow : Nat) : Int) < 0 := by
    rw [hcur0]
    omega
  have heq := sync_team_tables_eq_of_nongrow ws teamName cfg nm0 restNames
    (T nm0) hthsE hlist (hT nm0 hmem0) hnotpos
  rw [heq]
  refine ⟨rfl, ?_, ?_⟩
  · have hrc := syncFold_rc_neg ws (get_therapists_for_team cfg teamName) _ hd
      (TEAM_TABLES teamName) (ws.grid, 0, 0, 0, 0)
      (Or.inl ⟨nm0, hmem0, by rw [hT nm0 hmem0]; rfl⟩)
    show (if 0 < (syncFold _ _ _ _ _).2.2.2.2 then _ else _) = _
    rw [hrc]
    have htn : (-(((get_therapists_for_team cfg teamName).length : Int) -
        (((T nm0).maxRow - (T nm0).minRow : Nat) : Int))).toNat =
        cur - (get_therapists_for_team cfg teamName).length := by
      rw [hcur0]
      omega
    rw [htn, if_pos (by omega)]
  · intro nm hnm r c h1 h2 h3 h4
    show (syncFold _ _ _ _ _).1 r c = none
    apply syncFold_clear ws (get_therapists_for_team cfg teamName) _ hd (T nm)
      r c h1 h2 h3 h4
    · intro nm2 hnm2 t2 ht2
      rw [hT nm2 hnm2] at ht2
      injection ht2 with ht2
      subst ht2
      refine ⟨by rw [hTrows nm2 hnm2]; omega, ?_⟩
      by_cases hsame : nm2 = nm
      · subst hsame
        exact Or.inl rfl
      · refine Or.inr ?_
        apply rectDisjoint_not_inRect _ _ (hdisj nm2 hnm2 nm hnm hsame)
        unfold inRect
        omega
    · exact Or.inr ⟨nm, hnm, hT nm hnm⟩

/-- C5 witness: Physio_North with a single-member roster against five
parallel three-row tables — the two excess rows of every table are cleared
except the rightmost column, the table references are untouched, and a
pending delete of 2 is reported. -/
theorem C5_shrink_clears_witness :
    (sync_team_tables wsShrink "Physio_North" cfgOne).1.tables =
      wsShrink.tables ∧
    (sync_team_tables wsShrink "Physio_North" cfgOne).2.pending =
      some ⟨"KPI Dashboard North", "Physio_North", "delete", 2⟩ ∧
    (sync_team_tables wsShrink "Physio_North" cfgOne).1.grid 12 2 = none ∧
    (sync_team_tables wsShrink "Physio_North" cfgOne).1.grid 53 4 = none := by
  have h := C5_shrink_clears wsShrink "Physio_North" cfgOne shrinkT
    "Billings_North"
    ["Ceased_North", "Documentation_North", "Admin_North", "Attitude_North"] 3
    (by decide)
    (by decide)
    (by decide)
    (by decide)
    (by decide)
    (by decide)
    (by decide)
  exact ⟨h.1, h.2.1,
    h.2.2 "Billings_North" (by decide) 12 2 (by decide) (by decide) (by decide)
      (by decide),
    h.2.2 "Attitude_North" (by decide) 53 4 (by decide) (by decide) (by decide)
      (by decide)⟩

/- ================================================================== -/
/- C6 : running the sync twice                                         -/
/- ================================================================== -/

theorem syncFold_congr_tables (ws1 ws2 : WS) (h : ws1.tables = ws2.tables)
    (ths : List Therapist) (rowDelta : Int) :
    ∀ (names : List String) (acc : Grid × Nat × Nat × Nat × Nat),
      syncFold ws1 ths rowDelta names acc =
        syncFold ws2 ths rowDelta names acc := by
  intro names
  induction names with
  | nil => intro acc; rfl
  | cons nm rest ih =>
    intro acc
    simp only [syncFold, h]
    cases List.lookup nm ws2.tables with
    | none => exact ih acc
    | some t => exact ih _

/-- C6 counterexample: with a two-member roster against a one-row table
(the grow case) the FIRST run changes nothing, so the second run hits the
very same state and re-emits a pending change — the second run's
pending_change is not absent as the claim requires. -/
theorem C6_counterexample :
    ¬((sync_team_tables (sync_team_tables wsGrow "Physio_North" cfgTwo).1
        "Physio_North" cfgTwo).2.pending = none) := by decide

/-- C6 (amended): with the team's tables present, parallel and pairwise
disjoint and a sane roster (distinct, nonempty, already-stripped names),
running the sync twice with the same roster leaves the second run's table
references, cell grid AND pending_change all identical to the first run's:
contents are stable, but the pending change (when any) is re-emitted on
every run rather than returned once, because the sync never alters the
declared table references it measures the delta against. -/
theorem C6_second_run_idempotent (ws : WS) (teamName : String) (cfg : Config)
    (T : String → Table) (nm0 : String) (restNames : List String) (cur : Nat)
    (hlist : TEAM_TABLES teamName = nm0 :: restNames)
    (hT : ∀ nm ∈ TEAM_TABLES teamName, List.lookup nm ws.tables = some (T nm))
    (hTrows : ∀ nm ∈ TEAM_TABLES teamName, (T nm).maxRow - (T nm).minRow = cur)
    (hTcol : ∀ nm ∈ TEAM_TABLES teamName, (T nm).minCol < (T nm).maxCol)
    (hdisj : ∀ nm ∈ TEAM_TABLES teamName, ∀ nm2 ∈ TEAM_TABLES teamName,
      ¬(nm = nm2) → rectDisjoint (T nm) (T nm2))
    (hnodup : ((get_therapists_for_team cfg teamName).map
      (fun th => th.name)).Nodup)
    (hnames : ∀ th ∈ get_therapists_for_team cfg teamName, ¬(th.name = ""))
    (htrim : ∀ th ∈ get_therapists_for_team cfg teamName,
      pyStrip th.name = th.name) :
    (sync_team_tables (sync_team_tables ws teamName cfg).1 teamName
        cfg).1.tables = (sync_team_tables ws teamName cfg).1.tables ∧
    (sync_team_tables (sync_team_tables ws teamName cfg).1 teamName
        cfg).1.grid = (sync_team_tables ws teamName cfg).1.grid ∧
    (sync_team_tables (sync_team_tables ws teamName cfg).1 teamName
        cfg).2.pending = (sync_team_tables ws teamName cfg).2.pending := by
  have hmem0 : nm0 ∈ TEAM_TABLES teamName := by rw [hlist]; simp
  by_cases hE' : (get_therapists_for_team cfg teamName).isEmpty = true
  · have h1 : sync_team_tables ws teamName cfg = (ws, ⟨0, 0, 0, false, none⟩) := by
      rw [sync_team_tables]
      simp only [hE', if_true]
    have hrun1 : (sync_team_tables ws teamName cfg).1 = ws := by rw [h1]
    exact ⟨by rw [hrun1, hrun1], by rw [hrun1, hrun1], by rw [hrun1]⟩
  · have hE : (get_therapists_for_team cfg teamName).isEmpty = false := by
      cases h2 : (get_therapists_for_team cfg teamName).isEmpty
      · rfl
      · exact absurd h2 hE'
    by_cases hg : 0 < ((get_therapists_for_team cfg teamName).length : Int) -
        (((T nm0).maxRow - (T nm0).minRow : Nat) : Int)
    · have h1 : sync_team_tables ws teamName cfg =
          (ws, ⟨0, 0, 0, true, some ⟨TEAM_SHEET_MAP teamName, teamName, "add",
            (((get_therapists_for_team cfg teamName).length : Int) -
              (((T nm0).maxRow - (T nm0).minRow : Nat) : Int)).toNat⟩⟩) := by
        rw [sync_team_tables]
        simp only [hE, Bool.false_eq_true, if_false, hlist, List.head?_cons,
          hT nm0 hmem0, hg, if_true]
      have hrun1 : (sync_team_tables ws teamName cfg).1 = ws := by rw [h1]
      exact ⟨by rw [hrun1, hrun1], by rw [hrun1, hrun1], by rw [hrun1]⟩
    · have hlen : (get_therapists_for_team cfg teamName).length ≤ cur := by
        have h0 := hTrows nm0 hmem0
        omega
      have heq1 := sync_team_tables_eq_of_nongrow ws teamName cfg nm0
        restNames (T nm0) hE hlist (hT nm0 hmem0) hg
      have hlook2 : List.lookup nm0
          (sync_team_tables ws teamName cfg).1.tables = some (T nm0) := by
        rw [heq1]
        exact hT nm0 hmem0
      have heq2 := sync_team_tables_eq_of_nongrow
        (sync_team_tables ws teamName cfg).1 teamName cfg nm0 restNames
        (T nm0) hE hlist hlook2 hg
      have hcongr := syncFold_congr_tables (sync_team_tables ws teamName cfg).1
        ws (by rw [heq1]) (get_therapists_for_team cfg teamName)
        (((get_therapists_for_team cfg teamName).length : Int) -
          (((T nm0).maxRow - (T nm0).minRow : Nat) : Int))
      have hG1g : (sync_team_tables ws teamName cfg).1.grid =
          (syncFold ws (get_therapists_for_team cfg teamName)
            (((get_therapists_for_team cfg teamName).length : Int) -
              (((T nm0).maxRow - (T nm0).minRow : Nat) : Int))
            (TEAM_TABLES teamName) (ws.grid, 0, 0, 0, 0)).1 := by
        rw [heq1]
      have hsync : ∀ nm ∈ TEAM_TABLES teamName,
          syncedTable (get_therapists_for_team cfg teamName)
            (((get_therapists_for_team cfg teamName).length : Int) -
              (((T nm0).maxRow - (T nm0).minRow : Nat) : Int))
            ((sync_team_tables ws teamName cfg).1.grid) (T nm) := by
        intro nm hnm
        rw [hG1g]
        apply syncFold_synced ws (get_therapists_for_team cfg teamName) _
          (T nm) (by rw [hTrows nm hnm]; exact hlen) (hTcol nm hnm)
          (TEAM_TABLES teamName) (ws.grid, 0, 0, 0, 0) ?Hyp
          (Or.inl ⟨nm, hnm, hT nm hnm⟩)
        intro nm2 hnm2 t3 ht3
        rw [hT nm2 hnm2] at ht3
        injection ht3 with ht3
        subst ht3
        refine ⟨by rw [hTrows nm2 hnm2]; exact hlen, ?_⟩
        by_cases hsame : nm2 = nm
        · subst hsame
          exact Or.inl rfl
        · exact Or.inr (hdisj nm2 hnm2 nm hnm hsame)
      have hgrid2 : (sync_team_tables (sync_team_tables ws teamName cfg).1
          teamName cfg).1.grid = (sync_team_tables ws teamName cfg).1.grid := by
        rw [heq2]
        show (syncFold (sync_team_tables ws teamName cfg).1
            (get_therapists_for_team cfg teamName)
            (((get_therapists_for_team cfg teamName).length : Int) -
              (((T nm0).maxRow - (T nm0).minRow : Nat) : Int))
            (TEAM_TABLES teamName)
            ((sync_team_tables ws teamName cfg).1.grid, 0, 0, 0, 0)).1 =
          (sync_team_tables ws teamName cfg).1.grid
        rw [hcongr]
        apply syncFold_id ws (get_therapists_for_team cfg teamName) _
          ((sync_team_tables ws teamName cfg).1.grid) hnodup hnames htrim
          (TEAM_TABLES teamName) _ rfl
        intro nm2 hnm2 t3 ht3
        rw [hT nm2 hnm2] at ht3
        injection ht3 with ht3
        subst ht3
        have hr2 := hTrows nm2 hnm2
        have hr0 := hTrows nm0 hmem0
        exact ⟨by omega, hTcol nm2 hnm2, by omega, hsync nm2 hnm2⟩
      have htab2 : (sync_team_tables (sync_team_tables ws teamName cfg).1
          teamName cfg).1.tables =
          (sync_team_tables ws teamName cfg).1.tables := by
        rw [heq2]
      have hp1 : (sync_team_tables ws teamName cfg).2.pending =
          (if 0 < (syncFold ws (get_therapists_for_team cfg teamName)
              (((get_therapists_for_team cfg teamName).length : Int) -
                (((T nm0).maxRow - (T nm0).minRow : Nat) : Int))
              (TEAM_TABLES teamName) (ws.grid, 0, 0, 0, 0)).2.2.2.2 then
            some ⟨TEAM_SHEET_MAP teamName, teamName, "delete",
              (syncFold ws (get_therapists_for_team cfg teamName)
                (((get_therapists_for_team cfg teamName).length : Int) -
                  (((T nm0).maxRow - (T nm0).minRow : Nat) : Int))
                (TEAM_TABLES teamName) (ws.grid, 0, 0, 0, 0)).2.2.2.2⟩
          else none) := by
        rw [heq1]
      have hp2 : (sync_team_tables (sync_team_tables ws teamName cfg).1
          teamName cfg).2.pending =
          (if 0 < (syncFold ws (get_therapists_for_team cfg teamName)
              (((get_therapists_for_team cfg teamName).length : Int) -
                (((T nm0).maxRow - (T nm0).minRow : Nat) : Int))
              (TEAM_TABLES teamName)
              ((sync_team_tables ws teamName cfg).1.grid, 0, 0, 0, 0)).2.2.2.2
            then
            some ⟨TEAM_SHEET_MAP teamName, teamName, "delete",
              (syncFold ws (get_therapists_for_team cfg teamName)
                (((get_therapists_for_team cfg teamName).length : Int) -
                  (((T nm0).maxRow - (T nm0).minRow : Nat) : Int))
                (TEAM_TABLES teamName)
                ((sync_team_tables ws teamName cfg).1.grid,
                  0, 0, 0, 0)).2.2.2.2⟩
          else none) := by
        rw [heq2, hcongr]
      have hsome0 : (List.lookup nm0 ws.tables).isSome = true := by
        rw [hT nm0 hmem0]
        rfl
      have hpend2 : (sync_team_tables (sync_team_tables ws teamName cfg).1
          teamName cfg).2.pending = (sync_team_tables ws teamName cfg).2.pending := by
        by_cases hd : ((get_therapists_for_team cfg teamName).length : Int) -
            (((T nm0).maxRow - (T nm0).minRow : Nat) : Int) < 0
        · have r1 := syncFold_rc_neg ws (get_therapists_for_team cfg teamName)
            _ hd (TEAM_TABLES teamName) (ws.grid, 0, 0, 0, 0)
            (Or.inl ⟨nm0, hmem0, hsome0⟩)
          have r2 := syncFold_rc_neg ws (get_therapists_for_team cfg teamName)
            _ hd (TEAM_TABLES teamName)
            ((sync_team_tables ws teamName cfg).1.grid, 0, 0, 0, 0)
            (Or.inl ⟨nm0, hmem0, hsome0⟩)
          rw [hp1, hp2, r1, r2]
        · have r1 := syncFold_rc_of_nonneg ws
            (get_therapists_for_team cfg teamName) _ hd (TEAM_TABLES teamName)
            (ws.grid, 0, 0, 0, 0)
          have r2 := syncFold_rc_of_nonneg ws
            (get_therapists_for_team cfg teamName) _ hd (TEAM_TABLES teamName)
            ((sync_team_tables ws teamName cfg).1.grid, 0, 0, 0, 0)
          rw [hp1, hp2, r1, r2]
      exact ⟨htab2, hgrid2, hpend2⟩

/-- C6 witness: the five-table shrink workbook with a one-member roster —
the second run reproduces the first run's references, grid and (re-emitted)
pending delete. -/
theorem C6_second_run_idempotent_witness :
    (sync_team_tables (sync_team_tables wsShrink "Physio_North" cfgOne).1
        "Physio_North" cfgOne).1.grid =
      (sync_team_tables wsShrink "Physio_North" cfgOne).1.grid ∧
    (sync_team_tables (sync_team_tables wsShrink "Physio_North" cfgOne).1
        "Physio_North" cfgOne).2.pending =
      (sync_team_tables wsShrink "Physio_North" cfgOne).2.pending := by
  have h := C6_second_run_idempotent wsShrink "Physio_North" cfgOne shrinkT
    "Billings_North"
    ["Ceased_North", "Documentation_North", "Admin_North", "Attitude_North"] 3
    (by decide)
    (by decide)
    (by decide)
    (by decide)
    (by decide)
    (by decide)
    (by decide)
    (by decide)
  exact ⟨h.2.1, h.2.2⟩

/- ================================================================== -/
/- C9 : FTE table holds exactly the active therapists                  -/
/- ================================================================== -/

theorem lookup_upsert [DecidableEq α] (k : α) (v : β) (l : List (α × β)) :
    List.lookup k (upsert k v l) = some v := by
  induction l with
  | nil => simp [upsert, List.lookup]
  | cons p rest ih =>
    obtain ⟨k2, v2⟩ := p
    by_cases h : k2 = k
    · subst h
      simp [upsert, List.lookup]
    · have h2 : (k == k2) = false := beq_eq_false_iff_ne.mpr (fun hc => h hc.symm)
      simp [upsert, h, List.lookup, h2, ih]

theorem applyWrites_three_name (g : Grid) (r c : Nat) (v1 v2 v3 : Option Val)
    (l : List CellWrite) (hl : ∀ w ∈ l, ¬(w.1 = r ∧ w.2.1 = c)) :
    applyWrites g ((r, c, v1) :: (r, c + 1, v2) :: (r, c + 2, v3) :: l) r c =
      v1 := by
  show applyWrites (setCell (setCell (setCell g r c v1) r (c + 1) v2)
    r (c + 2) v3) l r c = v1
  rw [applyWrites_notin _ _ _ _ hl]
  rw [setCell_other _ _ _ _ _ _ (by omega), setCell_other _ _ _ _ _ _ (by omega)]
  exact setCell_same _ _ _ _

theorem fteWrites_row_ge (t : Table) :
    ∀ (ths : List Therapist) (i : Nat), ∀ w ∈ fteWrites t i ths,
      t.minRow + 1 + i ≤ w.1 := by
  intro ths
  induction ths with
  | nil =>
    intro i w hw
    simp [fteWrites] at hw
  | cons th rest ih =>
    intro i w hw
    simp only [fteWrites, List.mem_cons] at hw
    rcases hw with rfl | rfl | rfl | hw
    · dsimp only; omega
    · dsimp only; omega
    · dsimp only; omega
    · have := ih (i + 1) w hw
      omega

theorem fteClearWrites_row_ge (t : Table) (m : Nat) :
    ∀ w ∈ fteClearWrites t m, m + 1 ≤ w.1 := by
  intro w hw
  unfold fteClearWrites at hw
  rw [List.mem_flatMap] at hw
  obtain ⟨r, hr, hw⟩ := hw
  rw [List.mem_range'] at hr
  obtain ⟨j, hj, hr⟩ := hr
  subst hr
  simp only [List.mem_cons, List.not_mem_nil, or_false] at hw
  rcases hw with rfl | rfl | rfl
  · dsimp only; omega
  · dsimp only; omega
  · dsimp only; omega

theorem fteWrites_name_cell (t : Table) :
    ∀ (pre : List Therapist) (th : Therapist) (post : List Therapist)
      (g : Grid) (i : Nat),
      applyWrites g (fteWrites t i (pre ++ th :: post))
        (t.minRow + 1 + i + pre.length) t.minCol = some (.str th.name) := by
  intro pre
  induction pre with
  | nil =>
    intro th post g i
    exact applyWrites_three_name g (t.minRow + 1 + i) t.minCol _ _ _ _
      (fun w hw hcon => by
        have := fteWrites_row_ge t post (i + 1) w hw
        omega)
  | cons p pre ih =>
    intro th post g i
    have h2 := ih th post
      (setCell (setCell (setCell g (t.minRow + 1 + i) t.minCol
          (some (.str p.name)))
        (t.minRow + 1 + i) (t.minCol + 1) (some (.num (p.fte.getD 1))))
        (t.minRow + 1 + i) (t.minCol + 2) (some (.str p.team))) (i + 1)
    have hrow : t.minRow + 1 + i + (p :: pre).length =
        t.minRow + 1 + (i + 1) + pre.length := by
      simp only [List.length_cons]
      omega
    rw [hrow]
    exact h2

/-- C9: the FTE table sync writes exactly the active part of the roster —
`t.get('IsActive', True)`: a therapist belongs to the written FTE roster
iff its IsActive flag (missing defaulting to true) is true; row `i` of the
resized FTE table carries the `i`-th active therapist's name and an
inactive therapist's name appears in none of the rewritten rows; yet the
team-table roster keeps every therapist of the team, active or not. -/
theorem C9_fte_active_only (ws : WS) (cfg : Config) (t : Table)
    (hlook : List.lookup "FTETable" ws.tables = some t)
    (hnodup : (cfg.therapists.map (fun th => th.name)).Nodup) :
    (List.lookup "FTETable" (sync_fte_table ws cfg).1.tables =
      some { t with maxRow := t.minRow + (fteActiveSorted cfg).length }) ∧
    (∀ th ∈ cfg.therapists,
      (th ∈ fteActiveSorted cfg ↔ th.isActive.getD true = true)) ∧
    (∀ (pre : List Therapist) (th : Therapist) (post : List Therapist),
      fteActiveSorted cfg = pre ++ th :: post →
      (sync_fte_table ws cfg).1.grid (t.minRow + 1 + pre.length) t.minCol =
        some (.str th.name)) ∧
    (∀ th ∈ cfg.therapists, th.isActive.getD true = false →
      ∀ i, i < (fteActiveSorted cfg).length →
        ¬((sync_fte_table ws cfg).1.grid (t.minRow + 1 + i) t.minCol =
          some (.str th.name))) ∧
    (∀ th ∈ cfg.therapists, ∀ teamName, th.team = teamName →
      th ∈ get_therapists_for_team cfg teamName) := by
  have hperm : (fteActiveSorted cfg).Perm
      (cfg.therapists.filter (fun th2 => th2.isActive.getD true)) :=
    stableSortBy_perm _ _
  have hname : ∀ (pre : List Therapist) (th : Therapist)
      (post : List Therapist), fteActiveSorted cfg = pre ++ th :: post →
      (sync_fte_table ws cfg).1.grid (t.minRow + 1 + pre.length) t.minCol =
        some (.str th.name) := by
    intro pre th post hdec
    simp only [sync_fte_table, hlook]
    rw [hdec, applyWrites_append, applyWrites_notin]
    · exact fteWrites_name_cell t pre th post ws.grid 0
    · intro w hw
      split at hw
      · intro hcon
        obtain ⟨hc1, hc2⟩ := hcon
        have hge := fteClearWrites_row_ge t _ w hw
        have hlen : pre.length < (pre ++ th :: post).length := by
          rw [List.length_append, List.length_cons]
          omega
        omega
      · simp at hw
  refine ⟨?_, ?_, hname, ?_, ?_⟩
  · simp only [sync_fte_table, hlook]
    exact lookup_upsert _ _ _
  · intro th hth
    constructor
    · intro h
      exact (List.mem_filter.mp (hperm.mem_iff.mp h)).2
    · intro h
      exact hperm.mem_iff.mpr (List.mem_filter.mpr ⟨hth, h⟩)
  · intro th hth hfalse i hi
    have hdec2 := (List.take_append_drop i (fteActiveSorted cfg)).symm
    rw [List.drop_eq_getElem_cons hi] at hdec2
    have hv := hname (List.take i (fteActiveSorted cfg))
      ((fteActiveSorted cfg)[i]) (List.drop (i + 1) (fteActiveSorted cfg))
      hdec2
    have hlt : (List.take i (fteActiveSorted cfg)).length = i := by
      simp only [List.length_take]
      omega
    rw [hlt] at hv
    intro hcon
    rw [hv] at hcon
    injection hcon with h1
    injection h1 with h2
    have hm : (fteActiveSorted cfg)[i] ∈ fteActiveSorted cfg :=
      List.getElem_mem hi
    have hmf := List.mem_filter.mp (hperm.mem_iff.mp hm)
    have heq2 : (fteActiveSorted cfg)[i] = th :=
      List.inj_on_of_nodup_map hnodup hmf.1 hth h2
    have hact : ((fteActiveSorted cfg)[i]).isActive.getD true = true := hmf.2
    rw [heq2] at hact
    rw [hfalse] at hact
    exact absurd hact (by decide)
  · intro th hth teamName hteam
    have hperm2 : (get_therapists_for_team cfg teamName).Perm
        (cfg.therapists.filter (fun t2 => t2.team = teamName)) :=
      stableSortBy_perm _ _
    exact hperm2.mem_iff.mpr (List.mem_filter.mpr ⟨hth, by simp [hteam]⟩)

/-- C9 witness: a two-member config with Bob inactive against a two-row
FTE table — the table is resized to one data row, row 4 column A holds
Alice and never Bob, yet Bob is still in the Physio_North team roster. -/
theorem C9_fte_active_only_witness :
    List.lookup "FTETable" (sync_fte_table wsFte cfgMixed).1.tables =
      some ⟨1, 3, 15, 4⟩ ∧
    (sync_fte_table wsFte cfgMixed).1.grid 4 1 = some (.str "Alice") ∧
    ¬((sync_fte_table wsFte cfgMixed).1.grid 4 1 = some (.str "Bob")) ∧
    (⟨"Bob", "Physio_North", some "Grad", some false, false,
      some (4/5)⟩ : Therapist) ∈
      get_therapists_for_team cfgMixed "Physio_North" := by
  have h := C9_fte_active_only wsFte cfgMixed ⟨1, 3, 15, 5⟩ (by rfl) (by decide)
  refine ⟨?_, ?_, ?_, ?_⟩
  · rw [h.1]
    decide
  · exact h.2.2.1 []
      ⟨"Alice", "Physio_North", some "Senior", some true, true, some 1⟩ []
      (by decide)
  · exact h.2.2.2.1
      ⟨"Bob", "Physio_North", some "Grad", some false, false, some (4/5)⟩
      (by simp [cfgMixed])
      (by decide) 0 (by decide)
  · exact h.2.2.2.2
      ⟨"Bob", "Physio_North", some "Grad", some false, false, some (4/5)⟩
      (by simp [cfgMixed]) "Physio_North" rfl
